import Mathlib

/-!
# Verification of the DisputeShield evidence-packet pipeline

A shallow embedding of the evidence-packet assembly pipeline of
`src/apps/web/src/App.tsx` (text normalizer, evidence evaluator, document
composer, packet assembler, export gating), together with theorems checking
the natural-language specification against it.

Modelling conventions:
* A JavaScript string is modelled as a list of Unicode code points
  (`JsStr := List Nat`).  JS `.length` and `charAt` count UTF-16 code units,
  which coincides with code points on the Basic Multilingual Plane; all
  string constants in the program are BMP text.
* `toLowerCase` and `charAt(0).toUpperCase()` perform full Unicode case
  conversion in JavaScript, which can expand a character to several
  (`"\u00df".toUpperCase() = "SS"`).  They are modelled faithfully on the
  Basic Latin and Latin-1 letter fragment including that expansion
  (`upperChar` is string-valued); code points whose case mappings fall
  outside this fragment are treated as case-invariant, and every theorem
  whose truth depends on case behaviour either exhibits a concrete value
  inside the fragment or restricts its quantifier to the ASCII part of it.
* Regular-expression operations from the source are embedded as explicit
  scanners which implement the semantics of the concrete regexes used
  (`/\s+/`, `/\bups\b/gi` etc.), as documented at each definition.
-/

/-- A JavaScript string, as its sequence of code points. -/
abbrev JsStr := List Nat

/-- Code points of a Lean string literal, used to transcribe the string
constants of the source. -/
def str (s : String) : JsStr := s.data.map Char.toNat

/-- The JavaScript whitespace class `\s` (also the set trimmed by
`String.prototype.trim`): tab, LF, VT, FF, CR, space, NBSP, Ogham space,
the `U+2000`–`U+200A` spaces, LS, PS, NNBSP, MMSP, ideographic space, BOM. -/
def isWs (n : Nat) : Bool :=
  decide (n = 9 ∨ n = 10 ∨ n = 11 ∨ n = 12 ∨ n = 13 ∨ n = 32 ∨ n = 160 ∨
    n = 0x1680 ∨ (0x2000 ≤ n ∧ n ≤ 0x200a) ∨ n = 0x2028 ∨ n = 0x2029 ∨
    n = 0x202f ∨ n = 0x205f ∨ n = 0x3000 ∨ n = 0xfeff)

/-- JavaScript line terminators, the code points NOT matched by `.`
(without the `s` flag): LF, CR, LS, PS. -/
def isLineTerm (n : Nat) : Bool :=
  decide (n = 10 ∨ n = 13 ∨ n = 0x2028 ∨ n = 0x2029)

/-- The JS word-character class `\w` = `[A-Za-z0-9_]`, which defines the
word boundaries `\b`. -/
def isWordChar (n : Nat) : Bool :=
  decide ((48 ≤ n ∧ n ≤ 57) ∨ (65 ≤ n ∧ n ≤ 90) ∨ (97 ≤ n ∧ n ≤ 122) ∨ n = 95)

/-- The JS digit class `\d` = `[0-9]`. -/
def isDigitN (n : Nat) : Bool := decide (48 ≤ n ∧ n ≤ 57)

/-- Per-code-point `toLowerCase` on the Basic Latin and Latin-1 letter
fragment: `A`–`Z`, `À`–`Ö` and `Ø`–`Þ` map down by 32 (as in Unicode);
code points with mappings outside this fragment (such as `U+0130`, whose
lowercase expands) are treated as case-invariant. -/
def toLowerJs (n : Nat) : Nat :=
  if (65 ≤ n ∧ n ≤ 90) ∨ (0xc0 ≤ n ∧ n ≤ 0xd6) ∨ (0xd8 ≤ n ∧ n ≤ 0xde) then
    n + 32
  else n

/-- The string value of `String(c).toUpperCase()` for one code point `c`,
on the same fragment: `a`–`z`, `à`–`ö` and `ø`–`þ` map up by 32, and the
sharp s `U+00DF` expands to `"SS"` as in JavaScript's full Unicode
uppercasing; other code points are treated as case-invariant. -/
def upperChar (n : Nat) : JsStr :=
  if n = 0xdf then [83, 83]
  else if (97 ≤ n ∧ n ≤ 122) ∨ (0xe0 ≤ n ∧ n ≤ 0xf6) ∨ (0xf8 ≤ n ∧ n ≤ 0xfe) then
    [n - 32]
  else [n]

/-- `String.prototype.trim`: drop leading and trailing `\s` characters. -/
def trimJs (s : JsStr) : JsStr :=
  (((s.dropWhile isWs).reverse).dropWhile isWs).reverse

/-- Worker for `splitWs`; `cur` is the (possibly empty) word currently
being accumulated. -/
def splitWsGo (cur : JsStr) : JsStr → List JsStr
  | [] => if cur = [] then [] else [cur]
  | c :: r =>
    if isWs c then
      (if cur = [] then splitWsGo [] r else cur :: splitWsGo [] r)
    else splitWsGo (cur ++ [c]) r

/-- `text.split(/\s+/).filter(Boolean)`: the maximal runs of non-whitespace
characters of `text`, in order. -/
def splitWs (s : JsStr) : List JsStr := splitWsGo [] s

/-- `wrapText`'s greedy line-filling loop over the word list (the `for`
loop of the source); `line` is the line under construction. -/
def wrapLoop (maxLength : Nat) (line : JsStr) : List JsStr → List JsStr
  | [] => if line = [] then [] else [line]
  | w :: rest =>
    let candidate := if line = [] then w else line ++ 32 :: w
    if candidate.length > maxLength then
      (if line = [] then wrapLoop maxLength w rest
       else line :: wrapLoop maxLength w rest)
    else wrapLoop maxLength candidate rest

/-- `wrapText(text, maxLength)` from the source: greedy word wrap, `[""]`
for whitespace-only input. -/
def wrapText (text : JsStr) (maxLength : Nat) : List JsStr :=
  let words := splitWs text
  if words = [] then [[]]
  else wrapLoop maxLength [] words

/-- Split a string into maximal runs of characters with the same
`isWordChar` status; each run is tagged with that status.  This realizes
the positions of the regex word boundaries `\b`. -/
def tokenizeWords : JsStr → List (Bool × JsStr)
  | [] => []
  | c :: r =>
    match tokenizeWords r with
    | [] => [(isWordChar c, [c])]
    | (b, run) :: out =>
      if isWordChar c = b then (b, c :: run) :: out
      else (isWordChar c, [c]) :: (b, run) :: out

/-- `s.replace(/\b<pat>\b/gi, repl)` for an all-letter lowercase pattern
`pat`: every maximal word-character run that case-insensitively equals
`pat` is replaced by `repl` (a match must span a whole run because the
pattern consists of word characters and is flanked by `\b`). -/
def replaceWord (pat repl : JsStr) (s : JsStr) : JsStr :=
  ((tokenizeWords s).map
    (fun tk => if tk.1 && tk.2.map toLowerJs == pat then repl else tk.2)).flatten

/-- The fixed carrier-name fix-ups of `normalizeSentenceCase`, applied in
array order (ups, usps, fedex, dhl) by the source's `reduce`. -/
def fixups (s : JsStr) : JsStr :=
  replaceWord (str "dhl") (str "DHL")
    (replaceWord (str "fedex") (str "FedEx")
      (replaceWord (str "usps") (str "USPS")
        (replaceWord (str "ups") (str "UPS") s)))

/-- The sentence-casing core of `normalizeSentenceCase` applied to the
trimmed text: lower-case everything, upper-case the first character (a
string concatenation in the source, since `charAt(0).toUpperCase()` can
be several characters), then apply the carrier fix-ups. -/
def sentenceCore (t : JsStr) : JsStr :=
  match t.map toLowerJs with
  | [] => []
  | c :: rest => fixups (upperChar c ++ rest)

/-- `normalizeSentenceCase` from the source. -/
def normalizeSentenceCase (s : JsStr) : JsStr :=
  let t := trimJs s
  if t = [] then [] else sentenceCore t

/-- `[a, b, c, d, 45, e, f, 45, g, h]` with all of `a`–`h` digits:
the anchored prefix `\d{4}-\d{2}-\d{2}` of the timeline regex. -/
def isIsoDate (l : JsStr) : Bool :=
  match l with
  | [a, b, c, d, e, f, g, h, i, j] =>
    isDigitN a && isDigitN b && isDigitN c && isDigitN d && e == 45 &&
      isDigitN f && isDigitN g && h == 45 && isDigitN i && isDigitN j
  | _ => false

/-- Matching of `/^(\d{4}-\d{2}-\d{2})(\s*(?:-|:)\s*)(.+)$/` against `t`,
returning the three capture groups (date, separator, description) on
success.  The greedy `\s*` runs are maximal whitespace runs (no shorter
run can be followed by `-`/`:`, which are not whitespace); `(.+)$`
requires a non-empty line-terminator-free description reaching the end of
the string; when the remainder after the separator character is pure
whitespace the engine backtracks one character, so the last whitespace
character becomes the description provided it is not a line terminator. -/
def timelineMatch (t : JsStr) : Option (JsStr × JsStr × JsStr) :=
  if isIsoDate (t.take 10) then
    let rest0 := t.drop 10
    let ws1 := rest0.takeWhile isWs
    match rest0.drop ws1.length with
    | [] => none
    | c :: rest1 =>
      if c = 45 ∨ c = 58 then
        let ws2 := rest1.takeWhile isWs
        let desc := rest1.drop ws2.length
        if desc = [] then
          match rest1.getLast? with
          | none => none
          | some d =>
            if isLineTerm d then none
            else some (t.take 10, ws1 ++ c :: rest1.dropLast, [d])
        else if desc.any isLineTerm then none
        else some (t.take 10, ws1 ++ c :: ws2, desc)
      else none
  else none

/-- `normalizeTimelineEvent` from the source: preserve a leading ISO date
and separator, sentence-case the description; otherwise sentence-case the
whole trimmed event. -/
def normalizeTimelineEvent (e : JsStr) : JsStr :=
  let t := trimJs e
  if t = [] then []
  else
    match timelineMatch t with
    | some (date, sep, desc) => date ++ sep ++ normalizeSentenceCase desc
    | none => normalizeSentenceCase t

/-- `hasValue` from the source: non-empty after trimming. -/
def hasValue (v : JsStr) : Bool := decide (0 < (trimJs v).length)

/-! ## Data model: form state, attachments, evidence catalog -/

/-- `FormState` from the source; the dispute reason is carried as its raw
string value (the runtime representation of the TypeScript enum). -/
structure FormState where
  merchant_name : JsStr
  order_id : JsStr
  amount : JsStr
  currency : JsStr
  dispute_reason : JsStr
  timeline : List JsStr
  customer_email : JsStr
  billing_address : JsStr
  ip_address : JsStr
  tracking_number : JsStr
  carrier : JsStr
  delivery_date : JsStr
  policy_url : JsStr
  refund_policy_excerpt : JsStr
  customer_communication_notes : JsStr
deriving DecidableEq

/-- `AttachmentItem` from the source: the `File` reference is modelled by
its observable name and byte size (contents are opaque to the core). -/
structure AttachmentItem where
  id : JsStr
  name : JsStr
  size : Nat
  note : JsStr
deriving DecidableEq

/-- The `DISPUTE_REASONS` lookup `getReasonLabel`: label of a reason
value, defaulting to "Other" when the value is not in the list. -/
def getReasonLabel (r : JsStr) : JsStr :=
  if r = str "fraud" then str "Fraud/Unauthorized"
  else if r = str "product_not_received" then str "Product not received"
  else if r = str "product_unacceptable" then str "Product unacceptable"
  else if r = str "credit_not_processed" then str "Credit not processed"
  else if r = str "duplicate_unrecognized" then str "Duplicate/Unrecognized"
  else if r = str "other" then str "Other"
  else str "Other"

/-- The keys of `EVIDENCE_CATALOG`. -/
inductive EvidenceId where
  | proof_delivery | tracking_details | carrier_info | delivery_date
  | authorization_signals | billing_address | ip_address | customer_email
  | policies | refund_policy_excerpt | policy_url | customer_comms
  | timeline | attachments
deriving DecidableEq

/-- An entry of `EVIDENCE_CATALOG`. -/
structure EvidenceCatalogEntry where
  label : JsStr
  tooltip : JsStr
  isPresent : FormState → List AttachmentItem → Bool

/-- `EVIDENCE_CATALOG` from the source. -/
def EVIDENCE_CATALOG : EvidenceId → EvidenceCatalogEntry
  | .proof_delivery =>
    ⟨str "Proof of delivery", str "Tracking + carrier or delivery confirmation date.",
      fun f _ => (hasValue f.tracking_number && hasValue f.carrier) || hasValue f.delivery_date⟩
  | .tracking_details =>
    ⟨str "Tracking details", str "Carrier tracking number for shipment evidence.",
      fun f _ => hasValue f.tracking_number⟩
  | .carrier_info =>
    ⟨str "Carrier confirmation", str "Carrier name or service used for fulfillment.",
      fun f _ => hasValue f.carrier⟩
  | .delivery_date =>
    ⟨str "Delivery confirmation date", str "Date the carrier marked the package delivered.",
      fun f _ => hasValue f.delivery_date⟩
  | .authorization_signals =>
    ⟨str "Authorization signals", str "Billing address, IP, or customer email match.",
      fun f _ => hasValue f.billing_address || hasValue f.ip_address || hasValue f.customer_email⟩
  | .billing_address =>
    ⟨str "Billing address match", str "Billing address captured at checkout.",
      fun f _ => hasValue f.billing_address⟩
  | .ip_address =>
    ⟨str "IP address match", str "IP captured during checkout or account login.",
      fun f _ => hasValue f.ip_address⟩
  | .customer_email =>
    ⟨str "Customer email match", str "Email captured at checkout.",
      fun f _ => hasValue f.customer_email⟩
  | .policies =>
    ⟨str "Refund/cancellation policy", str "Published policy URL or excerpt.",
      fun f _ => hasValue f.policy_url || hasValue f.refund_policy_excerpt⟩
  | .refund_policy_excerpt =>
    ⟨str "Policy excerpt", str "Relevant policy text for the dispute reason.",
      fun f _ => hasValue f.refund_policy_excerpt⟩
  | .policy_url =>
    ⟨str "Policy URL", str "Link to your published policy page.",
      fun f _ => hasValue f.policy_url⟩
  | .customer_comms =>
    ⟨str "Customer communications", str "Emails, chats, or tickets acknowledging the order.",
      fun f _ => hasValue f.customer_communication_notes⟩
  | .timeline =>
    ⟨str "Timeline of events", str "Key order, fulfillment, and delivery milestones.",
      fun f _ => decide (0 < f.timeline.length)⟩
  | .attachments =>
    ⟨str "Supporting attachments", str "Screenshots, receipts, tracking scans, or files.",
      fun _ atts => decide (0 < atts.length)⟩

/-- The priority tiers of `EvidencePriority`. -/
inductive EvidencePriorityT where
  | critical | recommended
deriving DecidableEq

/-- The numeric rank assigned by `priorityRank` in both sort functions. -/
def priorityRank : EvidencePriorityT → Nat
  | .critical => 0
  | .recommended => 1

/-- `REASON_EVIDENCE_MAP.fraud.items`. -/
def fraudItems : List (EvidenceId × EvidencePriorityT) :=
  [(.authorization_signals, .critical), (.ip_address, .critical),
   (.billing_address, .recommended), (.customer_email, .recommended),
   (.customer_comms, .recommended), (.timeline, .recommended),
   (.attachments, .recommended)]

/-- `REASON_EVIDENCE_MAP.product_not_received.items`. -/
def productNotReceivedItems : List (EvidenceId × EvidencePriorityT) :=
  [(.proof_delivery, .critical), (.tracking_details, .critical),
   (.carrier_info, .recommended), (.delivery_date, .recommended),
   (.customer_comms, .recommended), (.timeline, .recommended),
   (.attachments, .recommended)]

/-- `REASON_EVIDENCE_MAP.product_unacceptable.items`. -/
def productUnacceptableItems : List (EvidenceId × EvidencePriorityT) :=
  [(.policies, .critical), (.customer_comms, .critical),
   (.attachments, .critical), (.timeline, .recommended),
   (.refund_policy_excerpt, .recommended), (.delivery_date, .recommended),
   (.authorization_signals, .recommended)]

/-- `REASON_EVIDENCE_MAP.credit_not_processed.items`. -/
def creditNotProcessedItems : List (EvidenceId × EvidencePriorityT) :=
  [(.policies, .critical), (.customer_comms, .critical),
   (.timeline, .critical), (.refund_policy_excerpt, .recommended),
   (.attachments, .recommended), (.authorization_signals, .recommended)]

/-- `REASON_EVIDENCE_MAP.duplicate_unrecognized.items`. -/
def duplicateUnrecognizedItems : List (EvidenceId × EvidencePriorityT) :=
  [(.authorization_signals, .critical), (.timeline, .critical),
   (.billing_address, .recommended), (.ip_address, .recommended),
   (.customer_comms, .recommended), (.attachments, .recommended)]

/-- `REASON_EVIDENCE_MAP.other.items`. -/
def otherItems : List (EvidenceId × EvidencePriorityT) :=
  [(.timeline, .critical), (.attachments, .recommended),
   (.policies, .recommended), (.customer_comms, .recommended),
   (.authorization_signals, .recommended), (.proof_delivery, .recommended)]

/-- `REASON_EVIDENCE_MAP[reason] ?? REASON_EVIDENCE_MAP.other`: the
ordered (category, priority) list for a reason value, falling back to the
"other" entry for unrecognized values. -/
def reasonItems (r : JsStr) : List (EvidenceId × EvidencePriorityT) :=
  if r = str "fraud" then fraudItems
  else if r = str "product_not_received" then productNotReceivedItems
  else if r = str "product_unacceptable" then productUnacceptableItems
  else if r = str "credit_not_processed" then creditNotProcessedItems
  else if r = str "duplicate_unrecognized" then duplicateUnrecognizedItems
  else if r = str "other" then otherItems
  else otherItems

/-- The six recognized dispute-reason values. -/
def knownReasons : List JsStr :=
  [str "fraud", str "product_not_received", str "product_unacceptable",
   str "credit_not_processed", str "duplicate_unrecognized", str "other"]

/-- An `EvidenceItem` of the source. -/
structure EvidenceItem where
  id : EvidenceId
  label : JsStr
  tooltip : JsStr
  priority : EvidencePriorityT
  present : Bool
deriving DecidableEq

/-- `buildEvidenceItems` from the source. -/
def buildEvidenceItems (reason : JsStr) (form : FormState)
    (atts : List AttachmentItem) : List EvidenceItem :=
  (reasonItems reason).map fun item =>
    { id := item.1
      label := (EVIDENCE_CATALOG item.1).label
      tooltip := (EVIDENCE_CATALOG item.1).tooltip
      priority := item.2
      present := (EVIDENCE_CATALOG item.1).isPresent form atts }

/-! ## Sorting

`Array.prototype.sort` with a consistent comparator is a stable sort; it
is embedded as a stable insertion sort over the comparator's "does not
compare greater" relation.  `localeCompare` on the catalog's ASCII labels
is modelled as lexicographic code-point comparison. -/

/-- Lexicographic three-way comparison of code-point lists (the model of
`label.localeCompare`). -/
def strCmp : JsStr → JsStr → Ordering
  | [], [] => .eq
  | [], _ :: _ => .lt
  | _ :: _, [] => .gt
  | a :: x, b :: y => if a < b then .lt else if b < a then .gt else strCmp x y

/-- Stable insertion of `x` into `l`: `x` is placed before the first
element it compares less-or-equal to. -/
def insertLe (le : α → α → Bool) (x : α) : List α → List α
  | [] => [x]
  | y :: ys => if le x y then x :: y :: ys else y :: insertLe le x ys

/-- Stable insertion sort by `le`. -/
def insertionSortLe (le : α → α → Bool) : List α → List α
  | [] => []
  | x :: xs => insertLe le x (insertionSortLe le xs)

/-- The comparator of `sortEvidenceByStrength`, as the relation
"comparator result is not positive". -/
def strengthLe (a b : EvidenceItem) : Bool :=
  if a.present ≠ b.present then a.present
  else if priorityRank a.priority ≠ priorityRank b.priority then
    decide (priorityRank a.priority < priorityRank b.priority)
  else strCmp a.label b.label ≠ .gt

/-- The comparator of `sortEvidenceByPriority`, as the relation
"comparator result is not positive". -/
def priorityLe (a b : EvidenceItem) : Bool :=
  if priorityRank a.priority ≠ priorityRank b.priority then
    decide (priorityRank a.priority < priorityRank b.priority)
  else strCmp a.label b.label ≠ .gt

/-- `sortEvidenceByStrength` from the source: present first, then by
priority, ties broken by label. -/
def sortEvidenceByStrength (items : List EvidenceItem) : List EvidenceItem :=
  insertionSortLe strengthLe items

/-- `sortEvidenceByPriority` from the source: critical first, ties broken
by label. -/
def sortEvidenceByPriority (items : List EvidenceItem) : List EvidenceItem :=
  insertionSortLe priorityLe items

/-! ## Document composer (`createPdfBytes`)

The body pages are produced by a pagination automaton: a cursor `y` moves
down the current page; `ensureSpace` appends a fresh page when the next
draw would cross the bottom margin.  A drawn line is recorded as its text
with font size and indent; per-page footers are drawn at fixed offsets
outside this flow and are not part of the line sequence.  The page height
(pdf-lib's default page geometry) is carried as a parameter `H`. -/

/-- One text draw of the body flow. -/
structure DrawnLine where
  text : JsStr
  size : Nat
  indent : Nat
deriving DecidableEq

/-- The pagination state: completed pages, current page, vertical cursor. -/
structure ComposeState where
  pages : List (List DrawnLine)
  cur : List DrawnLine
  y : Int
deriving DecidableEq

/-- The fixed `lineGap` of the source. -/
def lineGap : Nat := 6

/-- The fixed page `margin` of the source. -/
def pageMargin : Int := 50

/-- `ensureSpace(lines, size)`: open a new page when the required vertical
space would cross the bottom margin. -/
def ensureSpace (H : Int) (lines size : Nat) (st : ComposeState) : ComposeState :=
  if st.y - (lines * (size + lineGap) : Nat) < pageMargin then
    { pages := st.pages ++ [st.cur], cur := [], y := H - pageMargin }
  else st

/-- One guarded draw at a given indent (the body of `drawLine` and of the
loop in `drawLines`). -/
def drawOne (H : Int) (size indent : Nat) (st : ComposeState) (text : JsStr) :
    ComposeState :=
  let st := ensureSpace H 1 size st
  { st with cur := st.cur ++ [⟨text, size, indent⟩],
            y := st.y - ((size + lineGap : Nat) : Int) }

/-- `drawLine(text, size)` from the source. -/
def drawLineC (H : Int) (text : JsStr) (size : Nat) (st : ComposeState) :
    ComposeState :=
  drawOne H size 0 st text

/-- `drawLines(lines, size, indent)` from the source. -/
def drawLinesC (H : Int) (lines : List JsStr) (size indent : Nat)
    (st : ComposeState) : ComposeState :=
  lines.foldl (drawOne H size indent) st

/-- A bare `y -= d` between sections (no page check in the source). -/
def spendY (d : Nat) (st : ComposeState) : ComposeState :=
  { st with y := st.y - (d : Int) }

/-- JS template interpolation `${v || "—"}`. -/
def orDash (v : JsStr) : JsStr := if v = [] then str "—" else v

/-- The bullet text of an evidence-summary line. -/
def strengthLineText (item : EvidenceItem) : JsStr :=
  str "• " ++ item.label ++ str " — " ++
    (if item.present then str "Present" else str "Missing")

/-- The bullet text of an evidence-checklist line. -/
def checklistLineText (item : EvidenceItem) : JsStr :=
  str "• " ++ item.label ++ str " (" ++
    (if item.priority = .critical then str "Critical" else str "Recommended") ++
    str ") — " ++ (if item.present then str "Present" else str "Missing")

/-- The attachment-index entry text: `name` or `name — note`. -/
def attachmentEntryText (a : AttachmentItem) : JsStr :=
  if trimJs a.note = [] then a.name else a.name ++ str " — " ++ trimJs a.note

/-- The draw of a single timeline event in the Timeline section: the first
wrapped line bulleted, continuation lines indented by 16. -/
def timelineEventDraw (H : Int) (st : ComposeState) (ev : JsStr) : ComposeState :=
  let wrapped := wrapText (normalizeTimelineEvent ev) 90
  match wrapped with
  | [] => st
  | first :: rest =>
    let st := drawLinesC H [str "• " ++ first] 12 0 st
    if rest = [] then st else drawLinesC H rest 12 16 st

/-- The draw of a single attachment in the Attachment Index section. -/
def attachmentDraw (H : Int) (st : ComposeState) (a : AttachmentItem) :
    ComposeState :=
  let wrapped := wrapText (attachmentEntryText a) 90
  match wrapped with
  | [] => st
  | first :: rest =>
    let st := drawLinesC H [str "• " ++ first] 12 0 st
    if rest = [] then st else drawLinesC H rest 12 16 st

/-- The body pages of `createPdfBytes`, in source order: title, summary
block, evidence summary by strength, evidence checklist by priority,
timeline, attachment index. -/
def composeBody (H : Int) (form : FormState) (atts : List AttachmentItem) :
    ComposeState :=
  let items := buildEvidenceItems form.dispute_reason form atts
  let byStrength := sortEvidenceByStrength items
  let byPriority := sortEvidenceByPriority items
  let reasonText := getReasonLabel form.dispute_reason
  let st : ComposeState := { pages := [], cur := [], y := H - pageMargin }
  let st := drawLineC H (str "Chargeback Evidence") 20 st
  let st := spendY 8 st
  let st := drawLineC H (str "Summary") 14 st
  let st := drawLineC H (str "Merchant: " ++ orDash form.merchant_name) 12 st
  let st := drawLineC H (str "Order ID: " ++ orDash form.order_id) 12 st
  let st := drawLineC H (str "Dispute Reason: " ++ orDash reasonText) 12 st
  let st := drawLineC H
    (str "Amount: " ++
      (if form.amount = [] then str "—"
       else form.amount ++ str " " ++ form.currency)) 12 st
  let st := spendY 10 st
  let st := drawLineC H (str "Key Evidence Summary (Prioritized for Review)") 14 st
  let st := byStrength.foldl (fun st item => drawLineC H (strengthLineText item) 12 st) st
  let st := spendY 10 st
  let st := drawLineC H (str "Evidence Checklist") 14 st
  let st := byPriority.foldl (fun st item => drawLineC H (checklistLineText item) 12 st) st
  let st := spendY 10 st
  let st := drawLineC H (str "Timeline") 14 st
  let st :=
    if form.timeline = [] then drawLineC H (str "No timeline events added.") 12 st
    else form.timeline.foldl (timelineEventDraw H) st
  let st := spendY 10 st
  let st := drawLineC H (str "Attachment Index") 14 st
  let st :=
    if atts = [] then drawLineC H (str "No attachments included.") 12 st
    else atts.foldl (attachmentDraw H) st
  st

/-- The lines of the cover page (`drawCoverLine` has no pagination; the
page is a flat sequence of draws). -/
def coverLines (form : FormState) (atts : List AttachmentItem) : List JsStr :=
  let items := buildEvidenceItems form.dispute_reason form atts
  let strongest := ((sortEvidenceByStrength items).filter (·.present)).take 3
  let highlights :=
    ((form.timeline.map (fun ev => trimJs (normalizeTimelineEvent ev))).filter
      (· ≠ [])).take 3
  [str "Chargeback Evidence", str "Cover Summary",
   str "Dispute Reason: " ++ orDash (getReasonLabel form.dispute_reason),
   str "Top evidence included"]
  ++ (if strongest = [] then [str "No evidence items marked present yet."]
      else strongest.map (fun item => str "• " ++ item.label))
  ++ [str "Timeline highlights"]
  ++ (if highlights = [] then [str "No timeline events provided."]
      else highlights.map (fun ev => str "• " ++ ev))

/-- The texts drawn into the body flow, flattened across pages in order. -/
def bodyTexts (st : ComposeState) : List JsStr :=
  ((st.pages ++ [st.cur]).flatten).map DrawnLine.text

/-- All text lines of the composed document: cover page first, then the
flattened body pages. -/
def fullDocLines (H : Int) (form : FormState) (atts : List AttachmentItem) :
    List JsStr :=
  coverLines form atts ++ bodyTexts (composeBody H form atts)

/-- Section 1 of the body flow: title line and structural summary block
(merchant, order ID, dispute reason, amount+currency). -/
def titleSummarySection (form : FormState) : List JsStr :=
  [str "Chargeback Evidence", str "Summary",
   str "Merchant: " ++ orDash form.merchant_name,
   str "Order ID: " ++ orDash form.order_id,
   str "Dispute Reason: " ++ orDash (getReasonLabel form.dispute_reason),
   str "Amount: " ++
     (if form.amount = [] then str "—"
      else form.amount ++ str " " ++ form.currency)]

/-- Section 2: the evidence summary ranked by strength (present first). -/
def evidenceSummarySection (items : List EvidenceItem) : List JsStr :=
  str "Key Evidence Summary (Prioritized for Review)" ::
    (sortEvidenceByStrength items).map strengthLineText

/-- Section 3: the evidence checklist ranked by priority (critical
first), with the priority label shown. -/
def checklistSection (items : List EvidenceItem) : List JsStr :=
  str "Evidence Checklist" :: (sortEvidenceByPriority items).map checklistLineText

/-- The word-wrapped lines of one entry, first line bulleted. -/
def bulletWrapped (s : JsStr) : List JsStr :=
  match wrapText s 90 with
  | [] => []
  | first :: rest => (str "• " ++ first) :: rest

/-- Section 4: the timeline, one bulleted word-wrapped entry per event. -/
def timelineSection (form : FormState) : List JsStr :=
  str "Timeline" ::
    (if form.timeline = [] then [str "No timeline events added."]
     else (form.timeline.map
       (fun ev => bulletWrapped (normalizeTimelineEvent ev))).flatten)

/-- Section 5: the attachment index. -/
def attachmentIndexSection (atts : List AttachmentItem) : List JsStr :=
  str "Attachment Index" ::
    (if atts = [] then [str "No attachments included."]
     else (atts.map (fun a => bulletWrapped (attachmentEntryText a))).flatten)

/-! ## Packet assembler and export gating -/

/-- `csvEscape`'s inner `value.replace(/"/g, '""')`. -/
def escapeQuotes : JsStr → JsStr
  | [] => []
  | c :: r => if c = 34 then 34 :: 34 :: escapeQuotes r else c :: escapeQuotes r

/-- `csvEscape` from the source: wrap in double quotes, doubling internal
double quotes. -/
def csvEscape (v : JsStr) : JsStr := 34 :: escapeQuotes v ++ [34]

/-- Decimal digits of a number (JS number-to-string interpolation). -/
def natStr (n : Nat) : JsStr := str (Nat.repr n)

/-- The rows of `timeline.csv` pushed by the indexed `forEach` (1-based
index, normalized event CSV-escaped). -/
def timelineRows (i : Nat) : List JsStr → List JsStr
  | [] => []
  | e :: r =>
    (natStr (i + 1) ++ [44] ++ csvEscape (normalizeTimelineEvent e)) ::
      timelineRows (i + 1) r

/-- The full line list of `timeline.csv`, header first. -/
def timelineCsvLines (form : FormState) : List JsStr :=
  str "index,event" :: timelineRows 0 form.timeline

/-- One row of `attachments/index.csv` (`csvEscape(note || "")` equals
`csvEscape note`, since escaping the empty string is the empty body). -/
def attachmentIndexRow (a : AttachmentItem) : JsStr :=
  csvEscape a.name ++ [44] ++ natStr a.size ++ [44] ++ csvEscape a.note

/-- The full line list of `attachments/index.csv`, header first. -/
def attachmentIndexCsvLines (atts : List AttachmentItem) : List JsStr :=
  str "filename,size_bytes,note" :: atts.map attachmentIndexRow

/-- `lines.join("\n")`. -/
def joinNl (lines : List JsStr) : JsStr := (List.intersperse [10] lines).flatten

/-- One checklist line of `summary.txt`. -/
def summaryChecklistLine (item : EvidenceItem) : JsStr :=
  str "- " ++ item.label ++ str " (" ++
    (if item.priority = .critical then str "Critical" else str "Recommended") ++
    str "): " ++ (if item.present then str "Present" else str "Missing")

/-- The content of `summary.txt`. -/
def summaryText (form : FormState) (atts : List AttachmentItem) : JsStr :=
  let items := buildEvidenceItems form.dispute_reason form atts
  joinNl
    ([str "Merchant Name: " ++ orDash form.merchant_name,
      str "Order ID: " ++ orDash form.order_id,
      str "Amount: " ++ orDash form.amount,
      str "Currency: " ++ orDash form.currency,
      str "Dispute Reason: " ++ orDash (getReasonLabel form.dispute_reason),
      str "Customer Email: " ++ orDash form.customer_email,
      str "Billing Address: " ++ orDash form.billing_address,
      str "IP Address: " ++ orDash form.ip_address,
      str "Tracking Number: " ++ orDash form.tracking_number,
      str "Carrier: " ++ orDash form.carrier,
      str "Delivery Date: " ++ orDash form.delivery_date,
      str "Policy URL: " ++ orDash form.policy_url,
      str "Refund Policy Excerpt: " ++ orDash form.refund_policy_excerpt,
      str "Customer Communication Notes: " ++ orDash form.customer_communication_notes,
      [], str "Checklist:"]
     ++ (sortEvidenceByPriority items).map summaryChecklistLine)

/-- The content of `submission-notes.txt`. -/
def submissionNotesText (form : FormState) (atts : List AttachmentItem) : JsStr :=
  joinNl
    ([str "Submission Summary: " ++ getReasonLabel form.dispute_reason ++
        str " dispute for order " ++ orDash form.order_id ++
        str " in the amount of " ++ orDash form.amount ++ str " " ++
        form.currency ++
        str ". Evidence packet includes timeline, policies, and supporting materials generated by the merchant.",
      [], str "Attached evidence:"]
     ++ (if atts = [] then [str "- No attachments included."]
         else atts.map (fun a => str "- " ++ a.name))
     ++ [[], str "Timeline highlights:"]
     ++ (if form.timeline = [] then [str "- No timeline events provided."]
         else form.timeline.map (fun ev => str "- " ++ normalizeTimelineEvent ev))
     ++ (if hasValue form.policy_url then
           [[], str "Policy link:", trimJs form.policy_url]
         else []))

/-- The character class `[a-z0-9_-]` with the `i` flag, i.e. the
characters kept by `sanitizeFilenamePart`. -/
def isFileChar (n : Nat) : Bool :=
  decide ((48 ≤ n ∧ n ≤ 57) ∨ (65 ≤ n ∧ n ≤ 90) ∨ (97 ≤ n ∧ n ≤ 122) ∨
    n = 95 ∨ n = 45)

/-- `sanitizeFilenamePart`'s replacement of `/[^a-z0-9_-]+/gi` by `"_"`:
the `inBad` flag records whether the scanner is inside a run for which the
single underscore has already been emitted. -/
def replaceRunsGo : Bool → JsStr → JsStr
  | _, [] => []
  | inBad, c :: rest =>
    if isFileChar c then c :: replaceRunsGo false rest
    else if inBad then replaceRunsGo true rest
    else 95 :: replaceRunsGo true rest

/-- Each maximal run of characters outside `[A-Za-z0-9_-]` becomes one
underscore. -/
def replaceRuns (s : JsStr) : JsStr := replaceRunsGo false s

/-- Strip the leading underscore run (half of `/^_+|_+$/g`). -/
def stripLeadU (s : JsStr) : JsStr := s.dropWhile (fun n => n == 95)

/-- Strip the trailing underscore run (other half of `/^_+|_+$/g`). -/
def stripTrailU (s : JsStr) : JsStr :=
  (s.reverse.dropWhile (fun n => n == 95)).reverse

/-- `value.replace(/^_+|_+$/g, "")`: both underscore runs removed. -/
def stripU (s : JsStr) : JsStr := stripLeadU (stripTrailU s)

/-- `sanitizeFilenamePart` from the source. -/
def sanitizeFilenamePart (v : JsStr) : JsStr :=
  let cleaned := stripU (replaceRuns (trimJs v))
  if cleaned = [] then str "unknown" else cleaned

/-- The archive filename computed by `downloadZip`
(`dispute-evidence-<sanitizeFilenamePart(orderIdTrimmed)>.zip`). -/
def zipFileName (orderId : JsStr) : JsStr :=
  str "dispute-evidence-" ++ sanitizeFilenamePart (trimJs orderId) ++ str ".zip"

/-- The sanitization described verbatim by the specification sentence
(for the refinement comparison of the archive-naming claim): every
character outside `[A-Za-z0-9_-]` is replaced by an underscore, one
underscore per character, then leading and trailing underscores are
stripped, with the fixed placeholder for an empty result. -/
def claimSanitize (v : JsStr) : JsStr :=
  let cleaned := stripU (v.map (fun n => if isFileChar n then n else 95))
  if cleaned = [] then str "unknown" else cleaned

/-- The amended sanitization: every maximal run of characters outside
`[A-Za-z0-9_-]` is replaced by a single underscore, then leading and
trailing underscores are stripped, with the fixed placeholder for an
empty result.  (No separate trimming step is needed: a leading or
trailing whitespace run becomes an underscore that is then stripped.) -/
def amendedSanitize (v : JsStr) : JsStr :=
  let cleaned := stripU (replaceRuns v)
  if cleaned = [] then str "unknown" else cleaned

/-- The content of one archive entry. -/
inductive ZipContent where
  | text (s : JsStr)
  | fileData (name : JsStr)
  | pdfDoc (lines : List JsStr)
deriving DecidableEq

/-- The archive entries assembled by `downloadZip`, with their paths. -/
def zipEntries (form : FormState) (atts : List AttachmentItem)
    (pdfLines : List JsStr) : List (JsStr × ZipContent) :=
  atts.map (fun a => (str "attachments/" ++ a.name, ZipContent.fileData a.name))
  ++ [(str "attachments/index.csv",
        ZipContent.text (joinNl (attachmentIndexCsvLines atts))),
      (str "attachments/README.txt",
        ZipContent.text (str "Place screenshots/tracking proofs here before submitting.")),
      (str "evidence.pdf", ZipContent.pdfDoc pdfLines),
      (str "summary.txt", ZipContent.text (summaryText form atts)),
      (str "submission-notes.txt", ZipContent.text (submissionNotesText form atts)),
      (str "timeline.csv", ZipContent.text (joinNl (timelineCsvLines form)))]

/-! ## Verification gate and export actions -/

/-- The observable outcome of the relay `fetch`: a thrown/rejected call,
or a response with its HTTP-ok status and the `ok` field of the JSON
body. -/
inductive RelayResponse where
  | thrown
  | http (httpOk : Bool) (okField : Bool)
deriving DecidableEq

/-- `verifyTurnstileToken` from the source, as a function of the dev flag,
the cached token and the relay outcome; returns the boolean result
together with the token state afterwards (`setTurnstileToken(null)` is
modelled by returning `none`). -/
def verifyTurnstileToken (isDev : Bool) (token : Option JsStr)
    (resp : RelayResponse) : Bool × Option JsStr :=
  if isDev then (true, token)
  else
    match token with
    | none => (false, none)
    | some t =>
      match resp with
      | .thrown => (false, some t)
      | .http httpOk okField =>
        if httpOk = false then (false, some t)
        else if okField then (true, some t)
        else (false, none)

/-- The session state consulted by the export actions. -/
structure SessionState where
  form : FormState
  attachments : List AttachmentItem
  turnstileToken : Option JsStr
  isDev : Bool

/-- `hasHumanToken` from the source: `isDev || Boolean(turnstileToken)`. -/
def hasHumanToken (st : SessionState) : Bool :=
  st.isDev || st.turnstileToken.isSome

/-- The validation message `humanVerifyMessage`. -/
def humanVerifyMessage : JsStr := str "Verify you’re human to export."

/-- Outcome of the `generatePdf` action. -/
inductive PdfOutcome where
  | blocked (msg : JsStr)
  | produced (doc : List JsStr)
deriving DecidableEq

/-- `true` iff the action was stopped with a user-visible message. -/
def PdfOutcome.isBlocked : PdfOutcome → Bool
  | .blocked _ => true
  | .produced _ => false

/-- `true` iff document bytes were produced. -/
def PdfOutcome.isProduced : PdfOutcome → Bool
  | .blocked _ => false
  | .produced _ => true

/-- The `generatePdf` action from the source: gated only by the human
token and the verification call, then produces the composed document. -/
def generatePdfRun (H : Int) (st : SessionState) (resp : RelayResponse) :
    PdfOutcome :=
  if hasHumanToken st = false then .blocked humanVerifyMessage
  else if (verifyTurnstileToken st.isDev st.turnstileToken resp).1 = false then
    .blocked (str "Human verification failed. Please try again.")
  else .produced (fullDocLines H st.form st.attachments)

/-- Outcome of the `downloadZip` action. -/
inductive ZipOutcome where
  | blocked (msg : JsStr)
  | produced (name : JsStr) (entries : List (JsStr × ZipContent))
deriving DecidableEq

/-- `true` iff the action was stopped with a user-visible message. -/
def ZipOutcome.isBlocked : ZipOutcome → Bool
  | .blocked _ => true
  | .produced _ _ => false

/-- The `downloadZip` action from the source: order-ID validation first,
then the human token, then verification; on success the archive is
assembled (a cached PDF has the same bytes as a fresh composition, so the
document is composed directly here). -/
def downloadZipRun (H : Int) (st : SessionState) (resp : RelayResponse) :
    ZipOutcome :=
  if trimJs st.form.order_id = [] then .blocked (str "Order ID is required.")
  else if hasHumanToken st = false then .blocked humanVerifyMessage
  else if (verifyTurnstileToken st.isDev st.turnstileToken resp).1 = false then
    .blocked (str "Human verification failed. Please try again.")
  else
    .produced (zipFileName st.form.order_id)
      (zipEntries st.form st.attachments (fullDocLines H st.form st.attachments))

/-! ## Concrete session values used by witnesses and counterexamples -/

/-- A form whose order identifier is empty and whose other fields are the
initial values. -/
def demoEmptyForm : FormState where
  merchant_name := []
  order_id := []
  amount := []
  currency := str "USD"
  dispute_reason := str "fraud"
  timeline := []
  customer_email := []
  billing_address := []
  ip_address := []
  tracking_number := []
  carrier := []
  delivery_date := []
  policy_url := []
  refund_policy_excerpt := []
  customer_communication_notes := []

/-- A form with one timeline event, used to exhibit concrete CSV rows. -/
def demoTimelineForm : FormState :=
  { demoEmptyForm with order_id := str "ORD-1042",
                       timeline := [str "2026-02-10: order shipped early"] }

/-- A concrete attachment. -/
def demoAttachment : AttachmentItem where
  id := str "a1"
  name := str "receipt.png"
  size := 2048
  note := str "proof, with \"quotes\""

/-! ## Claim C1: the evidence evaluator follows the static reason map -/

/-- C1: for every dispute-reason value, form state and attachment list,
`buildEvidenceItems` returns exactly the (category, priority) pairs of
that reason's entry of the static reason→evidence map, in that order;
label and tooltip come from the catalog and only the `present` flag
depends on the form/attachment contents; an unrecognized reason value
falls back to the "other" entry. -/
theorem buildEvidenceItems_matches_reason_map (r : JsStr) (form : FormState)
    (atts : List AttachmentItem) :
    ((buildEvidenceItems r form atts).map (fun it => (it.id, it.priority)) =
      reasonItems r)
    ∧ (∀ it ∈ buildEvidenceItems r form atts,
        it.label = (EVIDENCE_CATALOG it.id).label ∧
        it.tooltip = (EVIDENCE_CATALOG it.id).tooltip ∧
        it.present = (EVIDENCE_CATALOG it.id).isPresent form atts)
    ∧ (r ∉ knownReasons →
        buildEvidenceItems r form atts = buildEvidenceItems (str "other") form atts) := by
  refine ⟨?_, ?_, ?_⟩
  · simp only [buildEvidenceItems, List.map_map, Function.comp]
    exact List.map_id' (reasonItems r)
  · intro it hit
    simp only [buildEvidenceItems, List.mem_map] at hit
    obtain ⟨p, _, rfl⟩ := hit
    exact ⟨rfl, rfl, rfl⟩
  · intro h
    simp only [knownReasons, List.mem_cons, List.not_mem_nil, or_false,
      not_or] at h
    obtain ⟨h1, h2, h3, h4, h5, h6⟩ := h
    have hr : reasonItems r = otherItems := by
      simp only [reasonItems, if_neg h1, if_neg h2, if_neg h3, if_neg h4,
        if_neg h5, if_neg h6]
    have ho : reasonItems (str "other") = otherItems := by decide
    simp only [buildEvidenceItems, hr, ho]

/-- Witness for C1 at concrete inputs: an unrecognized reason value is
evaluated with the "other" entry, and a concrete item's `present` flag is
the catalog predicate. -/
theorem buildEvidenceItems_matches_reason_map_witness :
    buildEvidenceItems (str "mystery") demoTimelineForm [] =
      buildEvidenceItems (str "other") demoTimelineForm []
    ∧ ∀ it ∈ buildEvidenceItems (str "mystery") demoTimelineForm [],
        it.label = (EVIDENCE_CATALOG it.id).label ∧
        it.tooltip = (EVIDENCE_CATALOG it.id).tooltip ∧
        it.present = (EVIDENCE_CATALOG it.id).isPresent demoTimelineForm [] :=
  ⟨(buildEvidenceItems_matches_reason_map (str "mystery") demoTimelineForm []).2.2
      (by decide),
   (buildEvidenceItems_matches_reason_map (str "mystery") demoTimelineForm []).2.1⟩

/-! ## Claim C2: export gating on the order identifier -/

/-- C2 counterexample: with an empty order identifier (and the
development bypass supplying the human token), the PDF-generation action
is not blocked and produces document bytes, contradicting the claim that
every export action is blocked. -/
theorem generatePdf_not_blocked_on_empty_order :
    (generatePdfRun 792 ⟨demoEmptyForm, [], none, true⟩
        RelayResponse.thrown).isBlocked = false
    ∧ (generatePdfRun 792 ⟨demoEmptyForm, [], none, true⟩
        RelayResponse.thrown).isProduced = true := by
  exact ⟨rfl, rfl⟩

/-- C2 amended: with an empty or whitespace-only order identifier the ZIP
action is blocked with the validation message "Order ID is required." and
produces no archive, but the PDF action is not gated on the order
identifier: when the human token is present and verification passes it
still produces the composed document. -/
theorem empty_order_blocks_zip_only (H : Int) (st : SessionState)
    (resp : RelayResponse) (h : trimJs st.form.order_id = [])
    (htok : hasHumanToken st = true)
    (hver : (verifyTurnstileToken st.isDev st.turnstileToken resp).1 = true) :
    downloadZipRun H st resp = .blocked (str "Order ID is required.")
    ∧ generatePdfRun H st resp =
        .produced (fullDocLines H st.form st.attachments) := by
  constructor
  · simp [downloadZipRun, h]
  · simp [generatePdfRun, htok, hver]

/-- Witness for C2 (amended) at a concrete session. -/
theorem empty_order_blocks_zip_only_witness :
    downloadZipRun 792 ⟨demoEmptyForm, [], none, true⟩ RelayResponse.thrown =
      .blocked (str "Order ID is required.")
    ∧ generatePdfRun 792 ⟨demoEmptyForm, [], none, true⟩ RelayResponse.thrown =
        .produced (fullDocLines 792 demoEmptyForm []) :=
  empty_order_blocks_zip_only 792 ⟨demoEmptyForm, [], none, true⟩
    RelayResponse.thrown (by decide) (by decide) (by decide)

/-! ## Claim C3: verification failure handling -/

/-- C3 counterexample: when the verification call throws, the function
returns `false` but the cached token is retained, contradicting the claim
that every verification failure discards the token; the same happens on a
non-2xx response. -/
theorem verify_thrown_retains_token :
    verifyTurnstileToken false (some (str "tok")) RelayResponse.thrown =
      (false, some (str "tok"))
    ∧ (verifyTurnstileToken false (some (str "tok")) RelayResponse.thrown).2 ≠ none
    ∧ verifyTurnstileToken false (some (str "tok")) (RelayResponse.http false false) =
      (false, some (str "tok")) := by
  exact ⟨rfl, by decide, rfl⟩

/-- C3 amended: outside development mode with a cached token, the
verification result is `true` exactly for a 2xx response whose body has
`ok:true`; every other outcome (non-2xx, `ok:false`, or a thrown call)
returns `false`; the cached token is discarded exactly when a 2xx
response carries `ok:false`, and is retained on non-2xx responses and
thrown calls.  In development mode the call returns `true` without
touching the token, and with no cached token it returns `false`. -/
theorem verify_failure_token_behavior (t : JsStr) (resp : RelayResponse) :
    ((verifyTurnstileToken false (some t) resp).1 = true ↔
      resp = .http true true)
    ∧ ((verifyTurnstileToken false (some t) resp).2 = none ↔
      resp = .http true false)
    ∧ (∀ tok : Option JsStr, verifyTurnstileToken true tok resp = (true, tok))
    ∧ verifyTurnstileToken false none resp = (false, none) := by
  refine ⟨?_, ?_, fun tok => rfl, rfl⟩ <;>
    rcases resp with _ | ⟨(_ | _), (_ | _)⟩ <;> simp [verifyTurnstileToken]

/-! ## Claim C10: CSV escaping -/

/-- The recursive quote-doubler agrees with its flat-map description. -/
theorem escapeQuotes_eq_flatMap (v : JsStr) :
    escapeQuotes v = v.flatMap fun c => if c = 34 then [34, 34] else [c] := by
  induction v with
  | nil => rfl
  | cons c r ih =>
    by_cases h : c = 34 <;> simp [escapeQuotes, h, ih]

/-- Indexing lemma for the rows of `timeline.csv`. -/
theorem timelineRows_getElem? (l : List JsStr) :
    ∀ (i k : Nat), (timelineRows i l)[k]? =
      l[k]?.map fun e => natStr (i + k + 1) ++ [44] ++
        csvEscape (normalizeTimelineEvent e) := by
  induction l with
  | nil => intro i k; simp [timelineRows]
  | cons e r ih =>
    intro i k
    cases k with
    | zero => simp [timelineRows]
    | succ k =>
      simp only [timelineRows, List.getElem?_cons_succ, ih (i + 1) k]
      have : i + 1 + k = i + (k + 1) := by omega
      rw [this]

/-- C10: `csvEscape` wraps every value in double quotes with internal
double quotes doubled, unconditionally; consequently every event field of
`timeline.csv` and every filename and note field of
`attachments/index.csv` is the fully quoted escape of its value, even
when the value contains no comma or quote character. -/
theorem csv_fields_fully_quoted :
    (∀ v : JsStr, csvEscape v =
        34 :: (v.flatMap fun c => if c = 34 then [34, 34] else [c]) ++ [34])
    ∧ (∀ v : JsStr,
        (csvEscape v).head? = some 34 ∧ (csvEscape v).getLast? = some 34)
    ∧ (∀ (form : FormState) (k : Nat) (e : JsStr),
        form.timeline[k]? = some e →
        (timelineCsvLines form)[k + 1]? =
          some (natStr (k + 1) ++ [44] ++ csvEscape (normalizeTimelineEvent e)))
    ∧ (∀ (atts : List AttachmentItem) (k : Nat) (a : AttachmentItem),
        atts[k]? = some a →
        (attachmentIndexCsvLines atts)[k + 1]? =
          some (csvEscape a.name ++ [44] ++ natStr a.size ++ [44] ++
            csvEscape a.note)) := by
  refine ⟨fun v => by rw [csvEscape, escapeQuotes_eq_flatMap], fun v => ⟨rfl, ?_⟩,
    fun form k e h => ?_, fun atts k a h => ?_⟩
  · exact List.getLast?_concat _
  · simp only [timelineCsvLines, List.getElem?_cons_succ,
      timelineRows_getElem? form.timeline 0 k, h, Option.map_some']
    simp
  · simp only [attachmentIndexCsvLines, List.getElem?_cons_succ,
      List.getElem?_map, h, Option.map_some', attachmentIndexRow]

/-! ## Claims C5 and C9: properties of `wrapText` -/

/-- Every word produced by the whitespace splitter is non-empty and free
of whitespace characters. -/
theorem splitWsGo_mem (s : JsStr) :
    ∀ (cur : JsStr), (∀ c ∈ cur, isWs c = false) →
      ∀ w ∈ splitWsGo cur s, w ≠ [] ∧ ∀ c ∈ w, isWs c = false := by
  induction s with
  | nil =>
    intro cur hcur w hw
    by_cases hc : cur = [] <;> simp [splitWsGo, hc] at hw
    exact hw ▸ ⟨hc, hcur⟩
  | cons c r ih =>
    intro cur hcur w hw
    by_cases hws : isWs c
    · by_cases hc : cur = [] <;> simp only [splitWsGo, hws, if_pos, hc,
        if_true, if_false, ite_true, ite_false, List.mem_cons] at hw
      · exact ih [] (by simp) w hw
      · rcases hw with rfl | hw
        · exact ⟨hc, hcur⟩
        · exact ih [] (by simp) w hw
    · simp only [splitWsGo, hws, if_false, ite_false] at hw
      refine ih (cur ++ [c]) ?_ w hw
      intro x hx
      rcases List.mem_append.1 hx with hx | hx
      · exact hcur x hx
      · simp at hx
        subst hx
        exact Bool.not_eq_true _ ▸ (by simpa using hws)

/-- Splitting distributes over a whitespace separator. -/
theorem splitWsGo_ws_append (d : Nat) (hd : isWs d = true) (b : JsStr) :
    ∀ (a : JsStr) (cur : JsStr),
      splitWsGo cur (a ++ d :: b) = splitWsGo cur a ++ splitWs b := by
  intro a
  induction a with
  | nil =>
    intro cur
    by_cases hc : cur = [] <;>
      simp [splitWsGo, hd, hc, splitWs]
  | cons x a' ih =>
    intro cur
    by_cases hx : isWs x
    · by_cases hc : cur = [] <;> simp [splitWsGo, hx, hc, ih []]
    · simp [splitWsGo, hx, ih (cur ++ [x])]

/-- A non-empty whitespace-free string splits to itself. -/
theorem splitWs_singleton (w : JsStr) (hne : w ≠ [])
    (hwf : ∀ c ∈ w, isWs c = false) : splitWs w = [w] := by
  suffices h : ∀ (v : JsStr), (∀ c ∈ v, isWs c = false) →
      ∀ cur, cur ++ v ≠ [] → splitWsGo cur v = [cur ++ v] by
    simpa using h w hwf [] (by simpa using hne)
  intro v
  induction v with
  | nil =>
    intro _ cur hne'
    simp only [List.append_nil] at hne' ⊢
    simp [splitWsGo, hne']
  | cons c v' ih =>
    intro hv cur _
    have hc : isWs c = false := hv c (by simp)
    simp only [splitWsGo, hc, Bool.false_eq_true, if_false, ite_false]
    rw [ih (fun x hx => hv x (by simp [hx])) (cur ++ [c]) (by simp)]
    simp

/-- Invariant of the greedy wrap loop: every emitted line fits in
`max` characters or is a single oversized word of `W`. -/
theorem wrapLoop_bound (max : Nat) (W : List JsStr) :
    ∀ (ws : List JsStr) (line : JsStr), (∀ w ∈ ws, w ∈ W) →
      (line = [] ∨ line.length ≤ max ∨ (line ∈ W ∧ max < line.length)) →
      ∀ l ∈ wrapLoop max line ws,
        l.length ≤ max ∨ (l ∈ W ∧ max < l.length) := by
  intro ws
  induction ws with
  | nil =>
    intro line _ hline l hl
    by_cases hl0 : line = [] <;> simp [wrapLoop, hl0] at hl
    subst hl
    rcases hline with h | h | h
    · exact absurd h hl0
    · exact Or.inl h
    · exact Or.inr h
  | cons w rest ih =>
    intro line hws hline l hl
    have hwW : w ∈ W := hws w (by simp)
    have hrest : ∀ x ∈ rest, x ∈ W := fun x hx => hws x (by simp [hx])
    have hinvw : w = [] ∨ w.length ≤ max ∨ (w ∈ W ∧ max < w.length) := by
      rcases Nat.le_total w.length max with h | h
      · exact Or.inr (Or.inl h)
      · rcases Nat.lt_or_ge max w.length with h' | h'
        · exact Or.inr (Or.inr ⟨hwW, h'⟩)
        · exact Or.inr (Or.inl h')
    by_cases hl0 : line = []
    · by_cases hcand : w.length > max <;>
        simp only [wrapLoop, hl0, if_pos, ite_true, hcand, if_true,
          if_false, ite_false] at hl <;>
        exact ih w hrest hinvw l hl
    · by_cases hcand : (line ++ 32 :: w).length > max

      · simp only [wrapLoop, hl0, ite_false, if_false, hcand, if_true,
          ite_true, List.mem_cons] at hl
        rcases hl with rfl | hl
        · rcases hline with h | h | h
          · exact absurd h hl0
          · exact Or.inl h
          · exact Or.inr h
        · exact ih w hrest hinvw l hl
      · simp only [wrapLoop, hl0, ite_false, if_false, hcand] at hl
        refine ih (line ++ 32 :: w) hrest (Or.inr (Or.inl ?_)) l hl
        exact Nat.le_of_not_lt hcand

/-- C5: every line returned by `wrapText(s, n)` has length at most `n`,
except that a single whitespace-delimited word of `s` longer than `n`
appears unmodified as a line of its own. -/
theorem wrapText_line_length_bound (text : JsStr) (maxLength : Nat)
    (l : JsStr) (hl : l ∈ wrapText text maxLength) :
    l.length ≤ maxLength ∨ (l ∈ splitWs text ∧ maxLength < l.length) := by
  unfold wrapText at hl
  by_cases hw : splitWs text = []
  · simp [hw] at hl
    subst hl
    exact Or.inl (by simp)
  · simp only [hw, if_false, ite_false] at hl
    exact wrapLoop_bound maxLength (splitWs text) (splitWs text) []
      (fun _ h => h) (Or.inl rfl) l hl

/-- Witness for C5: the first line of wrapping "hello world" at width 5. -/
theorem wrapText_line_length_bound_witness :
    (str "hello").length ≤ 5 ∨
      (str "hello" ∈ splitWs (str "hello world") ∧ 5 < (str "hello").length) :=
  wrapText_line_length_bound (str "hello world") 5 (str "hello") (by decide)

/-- The wrap loop emits exactly the words it is given, in order, prefixed
by the words of the line under construction. -/
theorem wrapLoop_join (max : Nat) :
    ∀ (ws : List JsStr) (line : JsStr),
      (∀ w ∈ ws, w ≠ [] ∧ ∀ c ∈ w, isWs c = false) →
      ((wrapLoop max line ws).map splitWs).flatten = splitWs line ++ ws := by
  intro ws
  induction ws with
  | nil =>
    intro line _
    by_cases hl0 : line = [] <;> simp [wrapLoop, hl0, splitWs, splitWsGo]
  | cons w rest ih =>
    intro line h
    obtain ⟨hwne, hwf⟩ := h w (by simp)
    have hrest : ∀ x ∈ rest, x ≠ [] ∧ ∀ c ∈ x, isWs c = false :=
      fun x hx => h x (by simp [hx])
    have hw1 : splitWs w = [w] := splitWs_singleton w hwne hwf
    by_cases hl0 : line = []
    · by_cases hcand : w.length > max <;>
        simp only [wrapLoop, hl0, ite_true, hcand, ite_false, if_true,
          if_false] <;>
      · rw [ih w hrest, hw1]
        simp [hl0, splitWs, splitWsGo]
    · by_cases hcand : (line ++ 32 :: w).length > max
      · simp only [wrapLoop, hl0, ite_false, hcand, ite_true, List.map_cons,
          List.flatten_cons]
        rw [ih w hrest, hw1]
        simp
      · simp only [wrapLoop, hl0, ite_false, hcand]
        rw [ih (line ++ 32 :: w) hrest,
          show splitWs (line ++ 32 :: w) = splitWs line ++ splitWs w from
            splitWsGo_ws_append 32 (by decide) w line [], hw1]
        simp

/-- C9: wrapping loses no text — splitting every returned line on
whitespace and concatenating in order yields exactly the
whitespace-delimited words of the input. -/
theorem wrapText_no_word_loss (text : JsStr) (maxLength : Nat) :
    ((wrapText text maxLength).map splitWs).flatten = splitWs text := by
  have hdef : wrapText text maxLength =
      if splitWs text = [] then [[]] else wrapLoop maxLength [] (splitWs text) := rfl
  rw [hdef]
  by_cases hw : splitWs text = []
  · rw [if_pos hw, hw]
    simp [splitWs, splitWsGo]
  · rw [if_neg hw,
      wrapLoop_join maxLength (splitWs text) [] (splitWsGo_mem text [] (by simp))]
    simp [splitWs, splitWsGo]

/-- Witness for C10 at a concrete form and attachment list. -/
theorem csv_fields_fully_quoted_witness :
    (timelineCsvLines demoTimelineForm)[1]? =
      some (natStr 1 ++ [44] ++
        csvEscape (normalizeTimelineEvent (str "2026-02-10: order shipped early")))
    ∧ (attachmentIndexCsvLines [demoAttachment])[1]? =
      some (csvEscape demoAttachment.name ++ [44] ++ natStr demoAttachment.size ++
        [44] ++ csvEscape demoAttachment.note) :=
  ⟨csv_fields_fully_quoted.2.2.1 demoTimelineForm 0
      (str "2026-02-10: order shipped early") (by decide),
   csv_fields_fully_quoted.2.2.2 [demoAttachment] 0 demoAttachment (by decide)⟩

/-! ## Claim C6: archive filename sanitization -/

/-- Whitespace characters are outside the kept class `[A-Za-z0-9_-]`. -/
theorem isFileChar_of_ws {n : Nat} (h : isWs n = true) : isFileChar n = false := by
  unfold isWs at h
  unfold isFileChar
  simp only [decide_eq_true_eq] at h
  simp only [decide_eq_false_iff_not]
  omega

/-- Stripping trailing underscores respects a common head. -/
theorem stripTrailU_cons (c : Nat) (A B : JsStr)
    (h : stripTrailU A = stripTrailU B) :
    stripTrailU (c :: A) = stripTrailU (c :: B) := by
  unfold stripTrailU at h ⊢
  rw [List.reverse_cons, List.reverse_cons, List.dropWhile_append,
    List.dropWhile_append]
  have hiff : (A.reverse.dropWhile (fun n => n == 95)).isEmpty =
      (B.reverse.dropWhile (fun n => n == 95)).isEmpty := by
    rcases hA : (A.reverse.dropWhile (fun n => n == 95)) with _ | ⟨a, as⟩ <;>
      rcases hB : (B.reverse.dropWhile (fun n => n == 95)) with _ | ⟨b, bs⟩ <;>
        simp_all
  rw [← hiff]
  by_cases hA : (A.reverse.dropWhile (fun n => n == 95)).isEmpty
  · rw [if_pos hA, if_pos hA]
  · rw [if_neg hA, if_neg hA]
    rw [List.reverse_append, List.reverse_append] at *
    simp only [List.reverse_cons, List.reverse_nil, List.nil_append,
      List.singleton_append] at *
    rw [h]

/-- A leading underscore disappears under `stripU`. -/
theorem stripU_cons_95 (A : JsStr) : stripU (95 :: A) = stripU A := by
  unfold stripU stripTrailU
  rw [List.reverse_cons, List.dropWhile_append]
  by_cases hA : (A.reverse.dropWhile (fun n => n == 95)).isEmpty
  · rw [if_pos hA]
    have h1 : A.reverse.dropWhile (fun n => n == 95) = [] := by
      simpa [List.isEmpty_iff] using hA
    simp [h1, List.dropWhile, stripLeadU]
  · rw [if_neg hA]
    rw [List.reverse_append]
    simp only [List.reverse_cons, List.reverse_nil, List.nil_append,
      List.singleton_append]
    unfold stripLeadU
    rw [List.dropWhile_cons_of_pos (by simp)]

/-- The scanner state (inside a bad run or not) does not affect the
stripped result. -/
theorem stripU_replaceRunsGo_state (r : JsStr) :
    stripU (replaceRunsGo true r) = stripU (replaceRunsGo false r) := by
  cases r with
  | nil => rfl
  | cons c rest =>
    by_cases h : isFileChar c
    · simp [replaceRunsGo, h]
    · simp only [replaceRunsGo, h, Bool.false_eq_true, if_false, ite_false,
        ite_true, if_true]
      exact (stripU_cons_95 (replaceRunsGo true rest)).symm

/-- Inside a bad run, further bad characters are skipped. -/
theorem replaceRunsGo_true_bad_append (W : JsStr)
    (hW : ∀ c ∈ W, isFileChar c = false) (r : JsStr) :
    replaceRunsGo true (W ++ r) = replaceRunsGo true r := by
  induction W with
  | nil => rfl
  | cons w W' ih =>
    have hw : isFileChar w = false := hW w (by simp)
    simp only [List.cons_append, replaceRunsGo, hw, Bool.false_eq_true,
      if_false, ite_false, ite_true, if_true]
    exact ih (fun c hc => hW c (by simp [hc]))

/-- Dropping a leading whitespace run does not change the sanitized
core. -/
theorem stripU_replaceRuns_dropWhile (v : JsStr) :
    stripU (replaceRuns (v.dropWhile isWs)) = stripU (replaceRuns v) := by
  induction v with
  | nil => rfl
  | cons c rest ih =>
    by_cases hws : isWs c
    · rw [List.dropWhile_cons_of_pos hws]
      rw [ih]
      show stripU (replaceRunsGo false rest) = stripU (replaceRuns (c :: rest))
      unfold replaceRuns
      simp only [replaceRunsGo, isFileChar_of_ws hws, Bool.false_eq_true,
        if_false, ite_false, ite_true, if_true]
      rw [stripU_cons_95 (replaceRunsGo true rest)]
      exact (stripU_replaceRunsGo_state rest).symm
    · rw [List.dropWhile_cons_of_neg hws]

/-- Dropping a trailing whitespace run does not change the sanitized
core (stated for both scanner states). -/
theorem stripTrailU_replaceRunsGo_append_ws (W : JsStr)
    (hW : ∀ c ∈ W, isWs c = true) :
    ∀ (v : JsStr) (b : Bool),
      stripTrailU (replaceRunsGo b (v ++ W)) = stripTrailU (replaceRunsGo b v) := by
  have hWbad : ∀ c ∈ W, isFileChar c = false :=
    fun c hc => isFileChar_of_ws (hW c hc)
  intro v
  induction v with
  | nil =>
    intro b
    cases W with
    | nil => rfl
    | cons w W' =>
      have hw : isFileChar w = false := hWbad w (by simp)
      have hW' : ∀ c ∈ W', isFileChar c = false :=
        fun c hc => hWbad c (by simp [hc])
      have htrue : replaceRunsGo true (w :: W') = [] := by
        have := replaceRunsGo_true_bad_append (w :: W')
          (by intro c hc; exact hWbad c hc) []
        simpa using this
      cases b with
      | true =>
        rw [List.nil_append, htrue]
        rfl
      | false =>
        have h' : replaceRunsGo true W' = [] := by
          have := replaceRunsGo_true_bad_append W' hW' []
          simpa using this
        simp only [List.nil_append, replaceRunsGo, hw, Bool.false_eq_true,
          if_false, ite_false, ite_true, if_true, h']
        decide
  | cons x v' ih =>
    intro b
    by_cases hx : isFileChar x
    · simp only [List.cons_append, replaceRunsGo, hx, ite_true, if_true]
      exact stripTrailU_cons x _ _ (ih false)
    · cases b with
      | true =>
        simp only [List.cons_append, replaceRunsGo, hx, Bool.false_eq_true,
          if_false, ite_false, ite_true, if_true]
        exact ih true
      | false =>
        simp only [List.cons_append, replaceRunsGo, hx, Bool.false_eq_true,
          if_false, ite_false, ite_true, if_true]
        exact stripTrailU_cons 95 _ _ (ih true)

/-- Trimming before sanitizing is redundant: the leading/trailing
whitespace runs become underscores which are stripped anyway. -/
theorem stripU_replaceRuns_trim (v : JsStr) :
    stripU (replaceRuns (trimJs v)) = stripU (replaceRuns v) := by
  have hu : v.dropWhile isWs =
      trimJs v ++ (((v.dropWhile isWs).reverse.takeWhile isWs)).reverse := by
    unfold trimJs
    conv_lhs => rw [← List.reverse_reverse (v.dropWhile isWs),
      ← List.takeWhile_append_dropWhile isWs (v.dropWhile isWs).reverse]
    rw [List.reverse_append]
  have hW : ∀ c ∈ (((v.dropWhile isWs).reverse.takeWhile isWs)).reverse,
      isWs c = true := by
    intro c hc
    rw [List.mem_reverse] at hc
    exact List.mem_takeWhile_imp hc
  calc stripU (replaceRuns (trimJs v))
      = stripLeadU (stripTrailU (replaceRunsGo false (trimJs v))) := rfl
    _ = stripLeadU (stripTrailU (replaceRunsGo false
          (trimJs v ++ (((v.dropWhile isWs).reverse.takeWhile isWs)).reverse))) := by
        rw [stripTrailU_replaceRunsGo_append_ws _ hW (trimJs v) false]
    _ = stripU (replaceRuns (v.dropWhile isWs)) := by rw [← hu]; rfl
    _ = stripU (replaceRuns v) := stripU_replaceRuns_dropWhile v

/-- C6 counterexample: on the order identifier "ORD  42" (two spaces) the
code collapses the whitespace run to a single underscore, while the
claim's per-character sanitization would produce two underscores; the
claimed filename therefore differs from the actual one. -/
theorem zip_filename_claim_cex :
    zipFileName (str "ORD  42") = str "dispute-evidence-ORD_42.zip"
    ∧ claimSanitize (str "ORD  42") = str "ORD__42"
    ∧ zipFileName (str "ORD  42") ≠
        str "dispute-evidence-" ++ claimSanitize (str "ORD  42") ++ str ".zip" := by
  refine ⟨by decide, by decide, by decide⟩

/-- C6 amended: the archive filename is
`dispute-evidence-<sanitized-order-id>.zip`, where sanitization preserves
letter case, replaces every maximal run of characters outside
`[A-Za-z0-9_-]` with a single `_`, strips leading and trailing
underscores, and substitutes the fixed placeholder "unknown" when the
result is empty; in particular "ORD 10/42" yields
"dispute-evidence-ORD_10_42.zip". -/
theorem zip_filename_sanitization (orderId : JsStr) :
    zipFileName orderId =
      str "dispute-evidence-" ++ amendedSanitize orderId ++ str ".zip"
    ∧ zipFileName (str "ORD 10/42") = str "dispute-evidence-ORD_10_42.zip" := by
  constructor
  · show str "dispute-evidence-" ++ sanitizeFilenamePart (trimJs orderId) ++
        str ".zip" = _
    have hcore : stripU (replaceRuns (trimJs (trimJs orderId))) =
        stripU (replaceRuns orderId) := by
      rw [stripU_replaceRuns_trim (trimJs orderId), stripU_replaceRuns_trim orderId]
    unfold sanitizeFilenamePart amendedSanitize
    rw [hcore]
  · decide

/-! ## Claim C7: timeline-event normalization -/

/-- A string passing the ISO-date check has exactly ten characters. -/
theorem isIsoDate_length {l : JsStr} (h : isIsoDate l = true) :
    l.length = 10 := by
  unfold isIsoDate at h
  split at h
  · simp_all
  · exact absurd h (by simp)

/-- `takeWhile isWs` of an all-whitespace prefix followed by a
non-whitespace character is exactly that prefix. -/
theorem takeWhile_ws_of_append (a : JsStr) (ha : ∀ x ∈ a, isWs x = true)
    (c : Nat) (hc : isWs c = false) (b : JsStr) :
    (a ++ c :: b).takeWhile isWs = a := by
  induction a with
  | nil => simp [List.takeWhile_cons, hc]
  | cons x a' ih =>
    have hx : isWs x = true := ha x (by simp)
    simp only [List.cons_append, List.takeWhile_cons, hx, ite_true, if_true]
    rw [ih (fun y hy => ha y (by simp [hy]))]

/-- C7 counterexample: "2026-02-10: X\ny" trims to a string that begins
with an ISO date, a separator and the non-empty description "X\ny", yet
because `.` does not match a line terminator the regex fails and the whole
string is sentence-cased: the code lower-cases the X, while the claim
requires only the description to be sentence-cased (preserving it as
"X\ny"). -/
theorem timeline_newline_cex :
    normalizeTimelineEvent (str "2026-02-10: X\ny") = str "2026-02-10: x\ny"
    ∧ str "2026-02-10: " ++ normalizeSentenceCase (str "X\ny") =
        str "2026-02-10: X\ny"
    ∧ normalizeTimelineEvent (str "2026-02-10: X\ny") ≠
        str "2026-02-10: " ++ normalizeSentenceCase (str "X\ny") := by
  refine ⟨by decide, by decide, by decide⟩

/-! ## Claim C8: idempotence of `normalizeSentenceCase` -/

/-- Unfolding of `normalizeSentenceCase`. -/
theorem normalizeSentenceCase_def (s : JsStr) :
    normalizeSentenceCase s =
      if trimJs s = [] then [] else sentenceCore (trimJs s) := rfl

/-- Lower-casing is idempotent. -/
theorem toLowerJs_toLowerJs (n : Nat) : toLowerJs (toLowerJs n) = toLowerJs n := by
  unfold toLowerJs
  split_ifs <;> omega

/-- Lower-casing stays within the ASCII range. -/
theorem toLowerJs_ascii {n : Nat} (h : n ≤ 127) : toLowerJs n ≤ 127 := by
  unfold toLowerJs
  split_ifs <;> omega

/-- For an ASCII character, the uppercased first character is a single
code point that lower-cases back to the lower-cased original. -/
theorem upperChar_spec {n : Nat} (h : n ≤ 127) :
    ∃ u, upperChar (toLowerJs n) = [u] ∧ toLowerJs u = toLowerJs n := by
  have hl : toLowerJs n ≤ 127 := toLowerJs_ascii h
  by_cases hcase : 97 ≤ toLowerJs n ∧ toLowerJs n ≤ 122
  · refine ⟨toLowerJs n - 32, ?_, ?_⟩
    · unfold upperChar
      rw [if_neg (by omega), if_pos (Or.inl hcase)]
    · clear hl
      unfold toLowerJs at hcase ⊢
      split_ifs at hcase ⊢ <;> omega
  · refine ⟨toLowerJs n, ?_, toLowerJs_toLowerJs n⟩
    unfold upperChar
    rw [if_neg (by omega), if_neg (by omega)]

/-- All characters of the trimmed string occur in the original. -/
theorem mem_trimJs_subset (s : JsStr) : ∀ x ∈ trimJs s, x ∈ s := by
  intro x hx
  unfold trimJs at hx
  rw [List.mem_reverse] at hx
  have h1 : x ∈ (s.dropWhile isWs).reverse :=
    (List.dropWhile_suffix isWs).subset hx
  rw [List.mem_reverse] at h1
  exact (List.dropWhile_suffix isWs).subset h1

/-- Case mapping does not change whitespace status. -/
theorem isWs_toLowerJs (n : Nat) : isWs (toLowerJs n) = isWs n := by
  unfold toLowerJs
  split_ifs with h
  · unfold isWs
    rw [decide_eq_decide]
    omega
  · rfl

/-- The word-run tokenization is a partition of the string. -/
theorem tokenizeWords_flatten (s : JsStr) :
    ((tokenizeWords s).map Prod.snd).flatten = s := by
  induction s with
  | nil => rfl
  | cons c r ih =>
    unfold tokenizeWords
    cases h : tokenizeWords r with
    | nil =>
      rw [h] at ih
      simp at ih
      simp [← ih]
    | cons tk out =>
      obtain ⟨b, run⟩ := tk
      rw [h] at ih
      by_cases hb : isWordChar c = b <;> simp [hb] <;> simp at ih <;>
        simp [← List.cons_append, ih]

/-- A whole-word replacement whose replacement text lower-cases to the
pattern does not change the lower-cased string. -/
theorem map_toLower_replaceWord (pat repl : JsStr)
    (hrepl : repl.map toLowerJs = pat) (s : JsStr) :
    (replaceWord pat repl s).map toLowerJs = s.map toLowerJs := by
  unfold replaceWord
  calc (((tokenizeWords s).map
        (fun tk => if tk.1 && tk.2.map toLowerJs == pat then repl
                   else tk.2)).flatten).map toLowerJs
      = (((tokenizeWords s).map
          (fun tk => if tk.1 && tk.2.map toLowerJs == pat then repl
                     else tk.2)).map (List.map toLowerJs)).flatten :=
        List.map_flatten ..
    _ = ((tokenizeWords s).map (fun tk => tk.2.map toLowerJs)).flatten := by
        rw [List.map_map]
        apply congrArg
        apply List.map_congr_left
        intro tk _
        show ((if tk.1 && tk.2.map toLowerJs == pat then repl
               else tk.2)).map toLowerJs = tk.2.map toLowerJs
        by_cases hcond : (tk.1 && tk.2.map toLowerJs == pat) = true
        · rw [if_pos hcond, hrepl]
          rw [Bool.and_eq_true] at hcond
          exact (eq_of_beq hcond.2).symm
        · rw [if_neg hcond]
    _ = (((tokenizeWords s).map Prod.snd).map (List.map toLowerJs)).flatten := by
        rw [List.map_map]
        rfl
    _ = (((tokenizeWords s).map Prod.snd).flatten).map toLowerJs :=
        (List.map_flatten ..).symm
    _ = s.map toLowerJs := by rw [tokenizeWords_flatten]

/-- The carrier fix-ups do not change the lower-cased string. -/
theorem map_toLower_fixups (s : JsStr) :
    (fixups s).map toLowerJs = s.map toLowerJs := by
  unfold fixups
  rw [map_toLower_replaceWord _ _ (by decide),
      map_toLower_replaceWord _ _ (by decide),
      map_toLower_replaceWord _ _ (by decide),
      map_toLower_replaceWord _ _ (by decide)]

/-- The head of a `dropWhile` result fails the predicate. -/
theorem dropWhile_head_not (p : Nat → Bool) (l : JsStr) :
    ∀ x, (l.dropWhile p).head? = some x → p x = false := by
  induction l with
  | nil => intro x hx; simp at hx
  | cons a t ih =>
    intro x hx
    by_cases hp : p a = true
    · rw [List.dropWhile_cons_of_pos hp] at hx
      exact ih x hx
    · rw [List.dropWhile_cons_of_neg hp] at hx
      simp at hx
      subst hx
      simpa using hp

/-- The trimmed string starts with a non-whitespace character. -/
theorem trimJs_head_not_ws (s : JsStr) :
    ∀ x, (trimJs s).head? = some x → isWs x = false := by
  intro x hx
  have hsuff : (s.dropWhile isWs).reverse.dropWhile isWs <:+ (s.dropWhile isWs).reverse :=
    List.dropWhile_suffix isWs
  have hpref : trimJs s <+: s.dropWhile isWs := by
    unfold trimJs
    have h1 := (@List.reverse_prefix Nat
      ((s.dropWhile isWs).reverse.dropWhile isWs)
      ((s.dropWhile isWs).reverse)).2 hsuff
    rwa [List.reverse_reverse] at h1
  obtain ⟨tail, htail⟩ := hpref
  have hx' : (s.dropWhile isWs).head? = some x := by
    rw [← htail, List.head?_append, hx]
    rfl
  exact dropWhile_head_not isWs s x hx'

/-- The trimmed string ends with a non-whitespace character. -/
theorem trimJs_getLast_not_ws (s : JsStr) :
    ∀ x, (trimJs s).getLast? = some x → isWs x = false := by
  intro x hx
  unfold trimJs at hx
  rw [List.getLast?_reverse] at hx
  exact dropWhile_head_not isWs _ x hx

/-- A string with non-whitespace head and last characters trims to
itself. -/
theorem trimJs_eq_self (s : JsStr)
    (hh : ∀ x, s.head? = some x → isWs x = false)
    (hl : ∀ x, s.getLast? = some x → isWs x = false) : trimJs s = s := by
  unfold trimJs
  have h1 : s.dropWhile isWs = s := by
    cases s with
    | nil => rfl
    | cons a t =>
      rw [List.dropWhile_cons_of_neg]
      simp [hh a rfl]
  rw [h1]
  have h2 : s.reverse.dropWhile isWs = s.reverse := by
    cases hrev : s.reverse with
    | nil => rfl
    | cons a t =>
      rw [List.dropWhile_cons_of_neg]
      have ha : s.getLast? = some a := by
        rw [← List.head?_reverse, hrev]
        rfl
      simp [hl a ha]
  rw [h2, List.reverse_reverse]

/-- C8 counterexample: JavaScript's full uppercasing expands the sharp s
(`"\u00df".toUpperCase() = "SS"`), so sentence-casing "\u00df ok" yields
"SS ok", whose own sentence-casing is "Ss ok": `normalizeSentenceCase` is
not idempotent. -/
theorem sentenceCase_sharp_s_not_idempotent :
    normalizeSentenceCase (str "ß ok") = str "SS ok"
    ∧ normalizeSentenceCase (normalizeSentenceCase (str "ß ok")) = str "Ss ok"
    ∧ normalizeSentenceCase (normalizeSentenceCase (str "ß ok")) ≠
        normalizeSentenceCase (str "ß ok") := by
  refine ⟨by decide, by decide, by decide⟩

/-- C8 amended: `normalizeSentenceCase` is idempotent on every input all
of whose characters are ASCII (where case mappings are single code points
that round-trip); applying it to its own output returns that output
unchanged. -/
theorem normalizeSentenceCase_ascii_idempotent (s : JsStr)
    (hascii : ∀ c ∈ s, c ≤ 127) :
    normalizeSentenceCase (normalizeSentenceCase s) = normalizeSentenceCase s := by
  by_cases h0 : trimJs s = []
  · rw [normalizeSentenceCase_def s, if_pos h0, normalizeSentenceCase_def,
      if_pos (show trimJs [] = [] from rfl)]
  · obtain ⟨hh, t0, hteq⟩ : ∃ hh t0, trimJs s = hh :: t0 := by
      cases hcase : trimJs s with
      | nil => exact absurd hcase h0
      | cons a b => exact ⟨a, b, rfl⟩
    have hhle : hh ≤ 127 := by
      refine hascii hh (mem_trimJs_subset s hh ?_)
      rw [hteq]
      simp
    obtain ⟨u, hueq, hulow⟩ := upperChar_spec hhle
    have hlower : (trimJs s).map toLowerJs =
        toLowerJs hh :: t0.map toLowerJs := by rw [hteq]; rfl
    have hout : normalizeSentenceCase s =
        fixups (upperChar (toLowerJs hh) ++ t0.map toLowerJs) := by
      rw [normalizeSentenceCase_def, if_neg h0]
      unfold sentenceCore
      rw [hlower]
    have hlow : (normalizeSentenceCase s).map toLowerJs =
        toLowerJs hh :: t0.map toLowerJs := by
      rw [hout, map_toLower_fixups, hueq]
      show toLowerJs u :: (t0.map toLowerJs).map toLowerJs
          = toLowerJs hh :: t0.map toLowerJs
      rw [hulow, List.map_map]
      exact congrArg (toLowerJs hh :: ·)
        (List.map_congr_left (fun x _ => toLowerJs_toLowerJs x))
    have hlowt : (normalizeSentenceCase s).map toLowerJs =
        (trimJs s).map toLowerJs := by rw [hlow, hlower]
    have houtne : normalizeSentenceCase s ≠ [] := by
      intro hcon
      rw [hcon] at hlow
      simp at hlow
    have hth : isWs hh = false :=
      trimJs_head_not_ws s hh (by rw [hteq]; rfl)
    have hhead : ∀ x, (normalizeSentenceCase s).head? = some x →
        isWs x = false := by
      intro x hx
      have h1 : ((normalizeSentenceCase s).map toLowerJs).head? =
          some (toLowerJs x) := by rw [List.head?_map, hx]; rfl
      rw [hlow] at h1
      simp only [List.head?_cons, Option.some_inj] at h1
      have : isWs (toLowerJs x) = isWs (toLowerJs hh) := by rw [h1]
      rw [isWs_toLowerJs, isWs_toLowerJs] at this
      rw [this, hth]
    have hlast : ∀ x, (normalizeSentenceCase s).getLast? = some x →
        isWs x = false := by
      intro x hx
      obtain ⟨g, hg⟩ : ∃ g, (trimJs s).getLast? = some g := by
        cases hgl : (trimJs s).getLast? with
        | none => exact absurd (List.getLast?_eq_none_iff.1 hgl) h0
        | some g => exact ⟨g, rfl⟩
      have hgws : isWs g = false := trimJs_getLast_not_ws s g hg
      have h1 : ((normalizeSentenceCase s).map toLowerJs).getLast? =
          some (toLowerJs x) := by rw [List.getLast?_map, hx]; rfl
      rw [hlowt, List.getLast?_map, hg] at h1
      simp only [Option.map_some', Option.some_inj] at h1
      have : isWs (toLowerJs g) = isWs (toLowerJs x) := by rw [h1]
      rw [isWs_toLowerJs, isWs_toLowerJs] at this
      rw [← this, hgws]
    have htrim : trimJs (normalizeSentenceCase s) = normalizeSentenceCase s :=
      trimJs_eq_self _ hhead hlast
    rw [normalizeSentenceCase_def (normalizeSentenceCase s), htrim,
      if_neg houtne]
    unfold sentenceCore
    rw [hlow, hout]

/-- Witness for C8 (amended) at a concrete ASCII input. -/
theorem normalizeSentenceCase_ascii_idempotent_witness :
    normalizeSentenceCase (normalizeSentenceCase (str "shipped VIA ups  ")) =
      normalizeSentenceCase (str "shipped VIA ups  ") :=
  normalizeSentenceCase_ascii_idempotent (str "shipped VIA ups  ") (by decide)

/-! ## Claim C4: fixed section order of the composed document -/

/-- Flattened texts are invariant under page breaks. -/
theorem bodyTexts_ensureSpace (H : Int) (n size : Nat) (st : ComposeState) :
    bodyTexts (ensureSpace H n size st) = bodyTexts st := by
  unfold ensureSpace bodyTexts
  split <;> simp

/-- A guarded draw appends exactly its text to the flattened document. -/
theorem bodyTexts_drawOne (H : Int) (size indent : Nat) (st : ComposeState)
    (t : JsStr) :
    bodyTexts (drawOne H size indent st t) = bodyTexts st ++ [t] := by
  unfold drawOne
  rw [← bodyTexts_ensureSpace H 1 size st]
  generalize ensureSpace H 1 size st = st'
  unfold bodyTexts
  simp

/-- `drawLine` appends its text. -/
theorem bodyTexts_drawLineC (H : Int) (t : JsStr) (size : Nat)
    (st : ComposeState) :
    bodyTexts (drawLineC H t size st) = bodyTexts st ++ [t] :=
  bodyTexts_drawOne H size 0 st t

/-- A bare vertical adjustment draws nothing. -/
theorem bodyTexts_spendY (d : Nat) (st : ComposeState) :
    bodyTexts (spendY d st) = bodyTexts st := rfl

/-- `drawLines` appends its lines in order. -/
theorem bodyTexts_drawLinesC (H : Int) (lines : List JsStr) (size indent : Nat) :
    ∀ st : ComposeState,
      bodyTexts (drawLinesC H lines size indent st) = bodyTexts st ++ lines := by
  induction lines with
  | nil => intro st; simp [drawLinesC]
  | cons l ls ih =>
    intro st
    show bodyTexts (drawLinesC H ls size indent (drawOne H size indent st l)) = _
    rw [ih, bodyTexts_drawOne]
    simp

/-- Folding a drawing step over a list appends the per-element texts in
order. -/
theorem bodyTexts_foldl {α : Type} (f : ComposeState → α → ComposeState)
    (g : α → List JsStr)
    (h : ∀ st x, bodyTexts (f st x) = bodyTexts st ++ g x) (l : List α) :
    ∀ st, bodyTexts (l.foldl f st) = bodyTexts st ++ (l.map g).flatten := by
  induction l with
  | nil => intro st; simp
  | cons x xs ih =>
    intro st
    show bodyTexts (xs.foldl f (f st x)) = _
    rw [ih, h]
    simp

/-- Flattening singleton blocks is mapping. -/
theorem flatten_map_singleton {α β : Type} (f : α → β) (l : List α) :
    (l.map (fun x => [f x])).flatten = l.map f := by
  induction l <;> simp_all

/-- The evidence-summary fold appends one line per item. -/
theorem bodyTexts_strengthFold (H : Int) (l : List EvidenceItem)
    (st : ComposeState) :
    bodyTexts (l.foldl (fun st item => drawLineC H (strengthLineText item) 12 st) st)
      = bodyTexts st ++ l.map strengthLineText := by
  rw [bodyTexts_foldl _ (fun item => [strengthLineText item])
    (fun st x => bodyTexts_drawLineC H (strengthLineText x) 12 st) l st,
    flatten_map_singleton]

/-- The checklist fold appends one line per item. -/
theorem bodyTexts_checklistFold (H : Int) (l : List EvidenceItem)
    (st : ComposeState) :
    bodyTexts (l.foldl (fun st item => drawLineC H (checklistLineText item) 12 st) st)
      = bodyTexts st ++ l.map checklistLineText := by
  rw [bodyTexts_foldl _ (fun item => [checklistLineText item])
    (fun st x => bodyTexts_drawLineC H (checklistLineText x) 12 st) l st,
    flatten_map_singleton]

/-- Drawing one timeline event appends its bulleted wrapped lines. -/
theorem bodyTexts_timelineEventDraw (H : Int) (st : ComposeState) (ev : JsStr) :
    bodyTexts (timelineEventDraw H st ev) =
      bodyTexts st ++ bulletWrapped (normalizeTimelineEvent ev) := by
  unfold timelineEventDraw bulletWrapped
  cases hw : wrapText (normalizeTimelineEvent ev) 90 with
  | nil => simp
  | cons first rest =>
    by_cases hr : rest = [] <;>
      simp [hr, bodyTexts_drawLinesC, List.append_assoc]

/-- The timeline fold appends the events' blocks in order. -/
theorem bodyTexts_timelineFold (H : Int) (l : List JsStr) (st : ComposeState) :
    bodyTexts (l.foldl (timelineEventDraw H) st) =
      bodyTexts st ++
        (l.map (fun ev => bulletWrapped (normalizeTimelineEvent ev))).flatten :=
  bodyTexts_foldl _ _ (bodyTexts_timelineEventDraw H) l st

/-- Drawing one attachment appends its bulleted wrapped lines. -/
theorem bodyTexts_attachmentDraw (H : Int) (st : ComposeState)
    (a : AttachmentItem) :
    bodyTexts (attachmentDraw H st a) =
      bodyTexts st ++ bulletWrapped (attachmentEntryText a) := by
  unfold attachmentDraw bulletWrapped
  cases hw : wrapText (attachmentEntryText a) 90 with
  | nil => simp
  | cons first rest =>
    by_cases hr : rest = [] <;>
      simp [hr, bodyTexts_drawLinesC, List.append_assoc]

/-- The attachment fold appends the attachments' blocks in order. -/
theorem bodyTexts_attachmentFold (H : Int) (l : List AttachmentItem)
    (st : ComposeState) :
    bodyTexts (l.foldl (attachmentDraw H) st) =
      bodyTexts st ++
        (l.map (fun a => bulletWrapped (attachmentEntryText a))).flatten :=
  bodyTexts_foldl _ _ (bodyTexts_attachmentDraw H) l st

/-- An empty state has no drawn texts. -/
theorem bodyTexts_init (y : Int) :
    bodyTexts { pages := [], cur := [], y := y } = [] := rfl

/-- Insertion respects any transitive relation compatible with the
comparator on both sides. -/
theorem pairwise_insertLe_rel {α : Type} (le : α → α → Bool) (R : α → α → Prop)
    (hle : ∀ a b, le a b = true → R a b)
    (hnle : ∀ a b, le a b = false → R b a)
    (htrans : ∀ a b c, R a b → R b c → R a c) (x : α) :
    ∀ l : List α, l.Pairwise R → (insertLe le x l).Pairwise R := by
  intro l
  induction l with
  | nil => intro _; simp [insertLe]
  | cons y ys ih =>
    intro h
    rw [List.pairwise_cons] at h
    obtain ⟨hy, hys⟩ := h
    by_cases hxy : le x y = true
    · rw [insertLe, if_pos hxy, List.pairwise_cons]
      refine ⟨?_, List.pairwise_cons.2 ⟨hy, hys⟩⟩
      intro b hb
      rcases List.mem_cons.1 hb with rfl | hb
      · exact hle x b hxy
      · exact htrans x y b (hle x y hxy) (hy b hb)
    · rw [insertLe, if_neg hxy, List.pairwise_cons]
      refine ⟨?_, ih hys⟩
      intro b hb
      have hmem : b = x ∨ b ∈ ys := by
        clear ih hy hys
        induction ys with
        | nil => simpa [insertLe] using hb
        | cons z zs ihz =>
          by_cases hxz : le x z = true
          · rw [insertLe, if_pos hxz] at hb
            rcases List.mem_cons.1 hb with rfl | hb
            · exact Or.inl rfl
            · exact Or.inr hb
          · rw [insertLe, if_neg hxz] at hb
            rcases List.mem_cons.1 hb with rfl | hb
            · exact Or.inr (by simp)
            · rcases ihz hb with rfl | hb'
              · exact Or.inl rfl
              · exact Or.inr (by simp [hb'])
      rcases hmem with hbx | hb'
      · rw [hbx]
        exact hnle x y (by simpa using hxy)
      · exact hy b hb'

/-- The insertion sort is pairwise-ordered for any transitive relation
compatible with the comparator. -/
theorem pairwise_insertionSortLe_rel {α : Type} (le : α → α → Bool)
    (R : α → α → Prop)
    (hle : ∀ a b, le a b = true → R a b)
    (hnle : ∀ a b, le a b = false → R b a)
    (htrans : ∀ a b c, R a b → R b c → R a c) :
    ∀ l : List α, (insertionSortLe le l).Pairwise R := by
  intro l
  induction l with
  | nil => simp [insertionSortLe]
  | cons x xs ih =>
    exact pairwise_insertLe_rel le R hle hnle htrans x _ ih

/-- C4: the composed document reproduces the fixed section order —
cover/title and summary block, evidence summary ranked by strength
(present items never after missing ones), evidence checklist ranked by
priority (critical never after recommended), timeline, attachment index —
for every form state, attachment list and page height. -/
theorem document_section_order (H : Int) (form : FormState)
    (atts : List AttachmentItem) :
    (fullDocLines H form atts =
      coverLines form atts
      ++ titleSummarySection form
      ++ evidenceSummarySection (buildEvidenceItems form.dispute_reason form atts)
      ++ checklistSection (buildEvidenceItems form.dispute_reason form atts)
      ++ timelineSection form
      ++ attachmentIndexSection atts)
    ∧ List.Pairwise (fun a b => b.present = true → a.present = true)
        (sortEvidenceByStrength (buildEvidenceItems form.dispute_reason form atts))
    ∧ List.Pairwise
        (fun a b => priorityRank a.priority ≤ priorityRank b.priority)
        (sortEvidenceByPriority (buildEvidenceItems form.dispute_reason form atts)) := by
  refine ⟨?_, ?_, ?_⟩
  · unfold fullDocLines composeBody
    simp only [bodyTexts_drawLineC, bodyTexts_spendY, bodyTexts_strengthFold,
      bodyTexts_checklistFold, bodyTexts_timelineFold, bodyTexts_attachmentFold,
      apply_ite bodyTexts, bodyTexts_init]
    by_cases htl : form.timeline = [] <;> by_cases hat : atts = [] <;>
      simp [htl, hat, titleSummarySection, evidenceSummarySection,
        checklistSection, timelineSection, attachmentIndexSection,
        List.append_assoc]
  · apply pairwise_insertionSortLe_rel strengthLe
      (fun a b => b.present = true → a.present = true)
    · intro a b hab hb
      by_cases hp : a.present = b.present
      · rw [hp]; exact hb
      · unfold strengthLe at hab
        rw [if_pos hp] at hab
        exact hab
    · intro a b hab ha
      by_cases hp : a.present = b.present
      · rw [← hp]; exact ha
      · unfold strengthLe at hab
        rw [if_pos hp] at hab
        rw [ha] at hab
        exact absurd hab (by simp)
    · intro a b c h1 h2 hc
      exact h1 (h2 hc)
  · apply pairwise_insertionSortLe_rel priorityLe
      (fun a b => priorityRank a.priority ≤ priorityRank b.priority)
    · intro a b hab
      by_cases hr : priorityRank a.priority = priorityRank b.priority
      · omega
      · unfold priorityLe at hab
        rw [if_pos hr] at hab
        have := of_decide_eq_true hab
        omega
    · intro a b hab
      by_cases hr : priorityRank a.priority = priorityRank b.priority
      · omega
      · unfold priorityLe at hab
        rw [if_pos hr] at hab
        have := of_decide_eq_false hab
        omega
    · intro a b c h1 h2
      omega

/-! ## Claim C7 (continued): the amended timeline theorem

The lemmas below settle both directions: a successful decomposition is
normalized with the date and separator preserved, and an input admitting
no decomposition is sentence-cased as a whole (the matcher is sound). -/

/-- Dropping the length of the `takeWhile` prefix is `dropWhile`. -/
theorem drop_length_takeWhile (p : Nat → Bool) (l : JsStr) :
    l.drop (l.takeWhile p).length = l.dropWhile p := by
  obtain ⟨rest, hrest⟩ := (List.takeWhile_prefix p : l.takeWhile p <+: l)
  have h2 : rest = l.dropWhile p := by
    have happ : l.takeWhile p ++ rest = l.takeWhile p ++ l.dropWhile p := by
      rw [hrest, List.takeWhile_append_dropWhile]
    exact List.append_cancel_left happ
  calc l.drop (l.takeWhile p).length
      = (l.takeWhile p ++ rest).drop (l.takeWhile p).length := by rw [hrest]
    _ = rest := List.drop_left _ _
    _ = l.dropWhile p := h2

/-- A list is its `takeWhile` prefix followed by the rest. -/
theorem takeWhile_append_drop_length (p : Nat → Bool) (l : JsStr) :
    l.takeWhile p ++ l.drop (l.takeWhile p).length = l := by
  rw [drop_length_takeWhile]
  exact List.takeWhile_append_dropWhile p l

/-- The last element of a list is a member. -/
theorem mem_of_getLast?_eq (l : JsStr) (a : Nat) (h : l.getLast? = some a) :
    a ∈ l := by
  rcases List.mem_getLast?_eq_getLast
      (show a ∈ l.getLast? by rw [h]; rfl) with ⟨hne, rfl⟩
  exact List.getLast_mem hne

/-- Soundness of the matcher on a string whose last character is not
whitespace (every input it receives is trimmed): a successful match means
the string decomposes as date, whitespace, separator, whitespace and a
non-empty line-terminator-free description with a non-whitespace head. -/
theorem timelineMatch_decomp (t : JsStr)
    (hlast : ∀ x, t.getLast? = some x → isWs x = false)
    (res : JsStr × JsStr × JsStr) (h : timelineMatch t = some res) :
    ∃ (date ws1 : JsStr) (c : Nat) (ws2 desc : JsStr),
      t = date ++ ws1 ++ c :: ws2 ++ desc ∧ isIsoDate date = true ∧
      (∀ x ∈ ws1, isWs x = true) ∧ (c = 45 ∨ c = 58) ∧
      (∀ x ∈ ws2, isWs x = true) ∧ desc ≠ [] ∧
      (∀ x ∈ desc, isLineTerm x = false) ∧
      (∀ x, desc.head? = some x → isWs x = false) := by
  by_cases hiso : isIsoDate (t.take 10) = true
  case neg =>
    unfold timelineMatch at h
    rw [if_neg hiso] at h
    exact absurd h (by simp)
  unfold timelineMatch at h
  rw [if_pos hiso] at h
  rcases hdrop : (t.drop 10).drop ((t.drop 10).takeWhile isWs).length
    with _ | ⟨c, rest1⟩
  · simp only [hdrop] at h
    exact absurd h (by simp)
  · simp only [hdrop] at h
    have ht1 : t = t.take 10 ++ ((t.drop 10).takeWhile isWs ++ (c :: rest1)) := by
      conv_lhs => rw [← List.take_append_drop 10 t]
      rw [← hdrop, takeWhile_append_drop_length]
    by_cases hc : c = 45 ∨ c = 58
    case neg =>
      rw [if_neg hc] at h
      exact absurd h (by simp)
    rw [if_pos hc] at h
    by_cases hdesc : rest1.drop (rest1.takeWhile isWs).length = []
    · exfalso
      rw [if_pos hdesc] at h
      rcases hg : rest1.getLast? with _ | g
      · simp only [hg] at h
        exact absurd h (by simp)
      · simp only [hg] at h
        have hallws : ∀ x ∈ rest1, isWs x = true := by
          have hd : rest1.dropWhile isWs = [] := by
            rw [← drop_length_takeWhile]
            exact hdesc
          exact List.dropWhile_eq_nil_iff.1 hd
        have hgws : isWs g = true := hallws g (mem_of_getLast?_eq _ _ hg)
        have htlast : t.getLast? = some g := by
          rw [ht1, List.getLast?_append, List.getLast?_append,
            show c :: rest1 = [c] ++ rest1 from rfl, List.getLast?_append, hg]
          rfl
        exact absurd (hlast g htlast) (by simp [hgws])
    · rw [if_neg hdesc] at h
      by_cases hterm : (rest1.drop (rest1.takeWhile isWs).length).any isLineTerm = true
      · rw [if_pos hterm] at h
        exact absurd h (by simp)
      · refine ⟨t.take 10, (t.drop 10).takeWhile isWs, c, rest1.takeWhile isWs,
          rest1.drop (rest1.takeWhile isWs).length, ?_, hiso,
          fun x hx => List.mem_takeWhile_imp hx, hc,
          fun x hx => List.mem_takeWhile_imp hx, hdesc, ?_, ?_⟩
        · have hr := takeWhile_append_drop_length isWs rest1
          conv_lhs => rw [ht1]
          conv_lhs => rw [← hr]
          simp [List.append_assoc]
        · intro x hx
          have hterm' : (rest1.drop (rest1.takeWhile isWs).length).any
              isLineTerm = false := by simpa using hterm
          have := List.any_eq_false.1 hterm' x hx
          simpa using this
        · intro x hx
          rw [drop_length_takeWhile] at hx
          exact dropWhile_head_not isWs rest1 x hx

/-- C7 amended: whenever the trimmed event decomposes as an ISO date,
optional whitespace, a `-`/`:` separator, optional whitespace and a
non-empty description that starts with a non-whitespace character and
contains no line terminator, the date and separator region are preserved
verbatim and only the description is sentence-cased; every non-empty
input admitting no such decomposition is sentence-cased as a whole; in
particular "2026-02-10: order shipped early" normalizes to
"2026-02-10: Order shipped early". -/
theorem timeline_date_preserved (e date ws1 ws2 desc : JsStr) (c : Nat)
    (ht : trimJs e = date ++ ws1 ++ c :: ws2 ++ desc)
    (hd : isIsoDate date = true)
    (hws1 : ∀ x ∈ ws1, isWs x = true)
    (hc : c = 45 ∨ c = 58)
    (hws2 : ∀ x ∈ ws2, isWs x = true)
    (hdesc : desc ≠ [])
    (hterm : ∀ x ∈ desc, isLineTerm x = false)
    (hhead : ∀ x, desc.head? = some x → isWs x = false) :
    normalizeTimelineEvent e = date ++ ws1 ++ c :: ws2 ++ normalizeSentenceCase desc
    ∧ (∀ e' : JsStr, trimJs e' ≠ [] →
        (¬ ∃ (date' ws1' : JsStr) (c' : Nat) (ws2' desc' : JsStr),
            trimJs e' = date' ++ ws1' ++ c' :: ws2' ++ desc' ∧
            isIsoDate date' = true ∧ (∀ x ∈ ws1', isWs x = true) ∧
            (c' = 45 ∨ c' = 58) ∧ (∀ x ∈ ws2', isWs x = true) ∧ desc' ≠ [] ∧
            (∀ x ∈ desc', isLineTerm x = false) ∧
            (∀ x, desc'.head? = some x → isWs x = false)) →
        normalizeTimelineEvent e' = normalizeSentenceCase (trimJs e'))
    ∧ normalizeTimelineEvent (str "2026-02-10: order shipped early") =
        str "2026-02-10: Order shipped early" := by
  have hcws : isWs c = false := by rcases hc with rfl | rfl <;> decide
  have hlen : date.length = 10 := isIsoDate_length hd
  obtain ⟨dh, dtl, rfl⟩ : ∃ dh dtl, desc = dh :: dtl := by
    cases desc with
    | nil => exact absurd rfl hdesc
    | cons dh dtl => exact ⟨dh, dtl, rfl⟩
  have hdh : isWs dh = false := hhead dh rfl
  have ht' : trimJs e = date ++ (ws1 ++ c :: (ws2 ++ dh :: dtl)) := by
    rw [ht]
    simp [List.append_assoc]
  have htake : (trimJs e).take 10 = date := by
    rw [ht', ← hlen, List.take_left]
  have hdrop : (trimJs e).drop 10 = ws1 ++ c :: (ws2 ++ dh :: dtl) := by
    rw [ht', ← hlen, List.drop_left]
  have hws1take : (ws1 ++ c :: (ws2 ++ dh :: dtl)).takeWhile isWs = ws1 :=
    takeWhile_ws_of_append ws1 hws1 c hcws _
  have hws1drop : (ws1 ++ c :: (ws2 ++ dh :: dtl)).drop ws1.length =
      c :: (ws2 ++ dh :: dtl) := List.drop_left ws1 _
  have hws2take : (ws2 ++ dh :: dtl).takeWhile isWs = ws2 :=
    takeWhile_ws_of_append ws2 hws2 dh hdh dtl
  have hws2drop : (ws2 ++ dh :: dtl).drop ws2.length = dh :: dtl :=
    List.drop_left ws2 _
  have hany : (dh :: dtl).any isLineTerm = false := by
    rw [List.any_eq_false]
    intro x hx
    simp [hterm x hx]
  have hmatch : timelineMatch (trimJs e) =
      some (date, ws1 ++ c :: ws2, dh :: dtl) := by
    unfold timelineMatch
    rw [htake, if_pos hd, hdrop]
    simp only [hws1take, hws1drop, hws2take, hws2drop, hany, if_pos hc]
    simp only [List.cons_ne_nil, if_false, ite_false, Bool.false_eq_true]
  have hdne : date ≠ [] := by
    intro h
    rw [h] at hlen
    simp at hlen
  have htne : trimJs e ≠ [] := by
    rw [ht']
    simp [hdne]
  refine ⟨?_, ?_, ?_⟩
  · show (if trimJs e = [] then [] else
      match timelineMatch (trimJs e) with
      | some (date, sep, desc) => date ++ sep ++ normalizeSentenceCase desc
      | none => normalizeSentenceCase (trimJs e)) = _
    rw [if_neg htne, hmatch]
    simp [List.append_assoc]
  · intro e' hne hno
    rcases hm : timelineMatch (trimJs e') with _ | res
    · show (if trimJs e' = [] then [] else
        match timelineMatch (trimJs e') with
        | some (date, sep, desc) => date ++ sep ++ normalizeSentenceCase desc
        | none => normalizeSentenceCase (trimJs e')) = _
      rw [if_neg hne, hm]
    · exact absurd (timelineMatch_decomp (trimJs e')
        (trimJs_getLast_not_ws e') res hm) hno
  · decide

/-- Witness for C7 (amended) at the Scenario C input. -/
theorem timeline_date_preserved_witness :
    normalizeTimelineEvent (str "2026-02-10: order shipped early") =
      str "2026-02-10" ++ [] ++ 58 :: [32] ++
        normalizeSentenceCase (str "order shipped early")
    ∧ normalizeTimelineEvent (str "2026-02-10: order shipped early") =
        str "2026-02-10: Order shipped early" :=
  ⟨(timeline_date_preserved (str "2026-02-10: order shipped early")
      (str "2026-02-10") [] [32] (str "order shipped early") 58
      (by decide) (by decide) (by decide) (by decide) (by decide) (by decide)
      (by decide) (by decide)).1,
   (timeline_date_preserved (str "2026-02-10: order shipped early")
      (str "2026-02-10") [] [32] (str "order shipped early") 58
      (by decide) (by decide) (by decide) (by decide) (by decide) (by decide)
      (by decide) (by decide)).2.2⟩
